import Mathlib

/-!
# restic `check` command: flag validation, bucket selection and the final verdict

A shallow embedding of `cmd/restic/cmd_check.go`.

* Go strings are byte sequences: `GoString = List Byte`, `Byte = Fin 256`.
  Byte literals are written as their ASCII codes (`47` is `'/'`, `48 .. 57` are
  `'0' .. '9'`).
* Go `uint` is `Arch.intSize` bits wide (32 or 64); a `uint` value is a `Nat`
  below `2 ^ intSize`, and the one subtraction on `uint` (`bucket - 1`) is taken
  modulo `2 ^ intSize`.
* `strconv.ParseUint` and `strings.Split` belong to the Go standard library; they
  are transcribed from the library's algorithm for the arguments the program
  passes (base 10, bit size 0, the one byte separator `"/"`).
* The checker (`chkr`), the repository and the lock are collaborators whose code is
  not part of the file; what they return is a field of `Collab`.  An error channel
  that is drained until it is closed is the list of the errors it delivered.
-/

namespace Restic

/-! ## Bytes, strings, machine words -/

/-- One byte. -/
abbrev Byte := Fin 256

/-- Go `string`: an immutable sequence of bytes. -/
abbrev GoString := List Byte

/-- Target word size: Go's `uint` is 32 or 64 bits wide. -/
inductive Arch where
  | bits32
  | bits64
  deriving DecidableEq, Repr

/-- Go `strconv.IntSize`: the size in bits of `int` and `uint`. -/
def Arch.intSize : Arch → Nat
  | .bits32 => 32
  | .bits64 => 64

/-- Number of values of a `uint`. -/
def Arch.uintCard (arch : Arch) : Nat := 2 ^ arch.intSize

/-! ## Errors -/

/-- The two sentinel errors of `strconv`. -/
inductive NumErrKind where
  | errSyntax
  | errRange
  deriving DecidableEq, Repr

/-- Go `error` values the command can return or observe. -/
inductive GoError where
  /-- Produced by `errors.Fatal` and `errors.Fatalf`, with the formatted message. -/
  | fatal (msg : String)
  /-- Produced by `strconv`: `*NumError` holding the offending input and the cause. -/
  | numError (num : GoString) (kind : NumErrKind)
  /-- Any error produced by a collaborator (repository, lock, checker). -/
  | external (code : Nat)
  deriving DecidableEq, Repr

/-! ## `strconv.ParseUint(s, 10, 0)` -/

/-- Go `strconv.lower`: `c | ('x' - 'X')`. -/
def lower (c : Byte) : Nat := c.val ||| 32

/-- Constant `maxUint64` of `strconv`. -/
def maxUint64 : Nat := 2 ^ 64 - 1

/-- Cutoff of `ParseUint` for base 10: the smallest number such that
`cutoff * 10 > maxUint64`. -/
def cutoff10 : Nat := maxUint64 / 10 + 1

/-- The digit loop of `ParseUint` for base 10; `n` is the `uint64` accumulator and
`s0` the whole input (for the error value). -/
def parseUintLoop (s0 : GoString) (maxVal : Nat) : List Byte → Nat → Nat × Option GoError
  | [], n => (n, none)
  | c :: cs, n =>
    if 48 ≤ c.val ∧ c.val ≤ 57 then
      -- d = c - '0', which is below the base
      let d := c.val - 48
      if n ≥ cutoff10 then
        (maxVal, some (.numError s0 .errRange))
      else
        let n10 := (n * 10) % 2 ^ 64
        let n1 := (n10 + d) % 2 ^ 64
        if n1 < n10 ∨ n1 > maxVal then
          (maxVal, some (.numError s0 .errRange))
        else
          parseUintLoop s0 maxVal cs n1
    else if 97 ≤ lower c ∧ lower c ≤ 122 then
      -- d = lower(c) - 'a' + 10 (at most 35, no wrap-around in a byte)
      let d := lower c - 97 + 10
      if d ≥ 10 then
        (0, some (.numError s0 .errSyntax))
      else
        -- not reached for base 10
        (0, some (.numError s0 .errSyntax))
    else
      (0, some (.numError s0 .errSyntax))

/-- Go `strconv.ParseUint(s, 10, 0)`: bit size 0 stands for `IntSize`. -/
def ParseUint (arch : Arch) (s : GoString) : Nat × Option GoError :=
  if s = [] then
    (0, some (.numError s .errSyntax))
  else
    let bitSize := arch.intSize
    let maxVal := 2 ^ bitSize - 1
    parseUintLoop s maxVal s 0

/-! ## `strings.Split(s, "/")` -/

/-- Go `strings.Split(s, sep)` for a one-byte separator: the substrings between the
occurrences of `sep`, in order; one more substring than there are separators. -/
def stringsSplit (sep : Byte) : List Byte → List GoString
  | [] => [[]]
  | c :: cs =>
    if c = sep then
      [] :: stringsSplit sep cs
    else
      match stringsSplit sep cs with
      | [] => [[c]]
      | p :: ps => (c :: p) :: ps

/-! ## `stringToIntSlice` -/

/-- The `for idx, part := range parts` loop of `stringToIntSlice`; `result` is the
slice made by `make([]uint, len(parts))`, and the nil slice is the empty list. -/
def stringToIntSliceLoop (arch : Arch) :
    List GoString → Nat → List Nat → List Nat × Option GoError
  | [], _, result => (result, none)
  | part :: rest, idx, result =>
    match ParseUint arch part with
    | (_, some err) => ([], some err)
    | (uintval, none) =>
      stringToIntSliceLoop arch rest (idx + 1) (result.set idx (uintval % arch.uintCard))

/-- Go `stringToIntSlice`: converts a string to `[]uint`, using `'/'` as element
separator.  Result: the slice (nil is `[]`) and the error (nil is `none`). -/
def stringToIntSlice (arch : Arch) (param : GoString) : List Nat × Option GoError :=
  if param = [] then
    ([], none)
  else
    let parts := stringsSplit 47 param
    let result := List.replicate parts.length 0
    stringToIntSliceLoop arch parts 0 result

/-! ## `checkFlags` -/

/-- Go `CheckOptions`: all options of the `check` command. -/
structure CheckOptions where
  ReadData : Bool
  ReadDataSubset : GoString
  CheckUnused : Bool
  WithCache : Bool
  deriving DecidableEq, Repr

/-- Go constant `totalBucketsMax`. -/
def totalBucketsMax : Nat := 256

/-- Message of the first `errors.Fatalf` of `checkFlags`. -/
def msgTogether : String :=
  "check flags --read-data and --read-data-subset cannot be used together"

/-- Message of the second `errors.Fatalf` of `checkFlags`. -/
def msgTwoValues : String :=
  "check flag --read-data-subset must have two positive integer values, e.g. --read-data-subset=1/2"

/-- Message of the third `errors.Fatalf` of `checkFlags`. -/
def msgPositive : String :=
  "check flag --read-data-subset=n/t values must be positive integers, and n <= t, e.g. --read-data-subset=1/2"

/-- Message of the fourth `errors.Fatalf` of `checkFlags`, with `%d` formatted as
`totalBucketsMax`. -/
def msgAtMost : String :=
  "check flag --read-data-subset=n/t t must be at most 256"

/-- Line printed after the hints when a duplicate-packs hint was among them (the
quotation marks around the command are left out). -/
def msgNonCritical : String :=
  "This is non-critical, you can run restic rebuild-index to correct this"

/-- Go `checkFlags`; `none` is the nil error. -/
def checkFlags (arch : Arch) (opts : CheckOptions) : Option GoError :=
  if opts.ReadData = true ∧ opts.ReadDataSubset ≠ [] then
    some (.fatal msgTogether)
  else if opts.ReadDataSubset ≠ [] then
    match stringToIntSlice arch opts.ReadDataSubset with
    | ([n, t], none) =>
      if n = 0 ∨ t = 0 ∨ n > t then
        some (.fatal msgPositive)
      else if t > totalBucketsMax then
        some (.fatal msgAtMost)
      else
        none
    | _ => some (.fatal msgTwoValues)
  else
    none

/-! ## Pack selection of `doReadData` -/

/-- Go `restic.ID`: `[32]byte`. -/
abbrev ID := Mathlib.Vector Byte 32

/-- Go `restic.IDSet`: a set of IDs. -/
abbrev IDSet := Finset ID

/-- Run-time panics the command can raise. -/
inductive GoPanic where
  /-- Raised by `x % 0` on integers. -/
  | divideByZero
  /-- Raised by indexing a slice at or beyond its length. -/
  | indexOutOfRange (index len : Nat)
  deriving DecidableEq, Repr

/-- The test `(uint(pack[0]) % totalBuckets) == (bucket - 1)` of `doReadData`, for
`totalBuckets != 0`; `bucket - 1` is a `uint` subtraction. -/
def packSelected (arch : Arch) (bucket totalBuckets : Nat) (pack : ID) : Bool :=
  decide ((pack.head).val % totalBuckets = (bucket + arch.uintCard - 1) % arch.uintCard)

/-- The first loop of `doReadData`: the set `packs` built from `chkr.GetPacks()`.
The modulus panics on the first pack visited when `totalBuckets` is zero. -/
def selectPacks (arch : Arch) (bucket totalBuckets : Nat) (allPacks : IDSet) :
    Except GoPanic IDSet :=
  if totalBuckets = 0 then
    if allPacks = ∅ then .ok ∅ else .error .divideByZero
  else
    .ok (allPacks.filter (fun pack => packSelected arch bucket totalBuckets pack = true))

/-! ## `runCheck` -/

/-- What `chkr.LoadIndex` returns as a hint. -/
inductive Hint where
  /-- A hint of type `checker.ErrDuplicatePacks`. -/
  | duplicatePacks (pack : ID)
  /-- Any other hint. -/
  | other (code : Nat)
  deriving DecidableEq

/-- The collaborators of `runCheck`: what the repository, the lock and the checker
return during one run. -/
structure Collab where
  /-- Error of `OpenRepository(gopts)`. -/
  openRepository : Option GoError
  /-- Field `gopts.NoLock`. -/
  NoLock : Bool
  /-- Field `gopts.Quiet`. -/
  Quiet : Bool
  /-- Error of `lockRepoExclusive(repo)`. -/
  lockRepoExclusive : Option GoError
  /-- Hints of `chkr.LoadIndex`. -/
  loadIndexHints : List Hint
  /-- Errors of `chkr.LoadIndex`. -/
  loadIndexErrs : List GoError
  /-- Predicate `checker.IsOrphanedPack`. -/
  IsOrphanedPack : GoError → Bool
  /-- Errors delivered on the channel by `chkr.Packs` before it is closed. -/
  packsErrs : List GoError
  /-- Errors delivered on the channel by `chkr.Structure` before it is closed. -/
  structureErrs : List GoError
  /-- Result of `chkr.UnusedBlobs()`. -/
  unusedBlobs : List ID
  /-- Result of `chkr.GetPacks()`. -/
  getPacks : IDSet
  /-- Result of `chkr.CountPacks()`. -/
  countPacks : Nat
  /-- Errors delivered on the channel by `chkr.ReadPacks` for a pack set. -/
  readPacksErrs : IDSet → List GoError

/-- What a run does that is visible outside: calls of collaborators and messages, in
program order. -/
inductive Event where
  | callOpenRepository
  | callLockRepoExclusive
  | callNew
  | callLoadIndex
  | callPacks
  | callStructure
  | callUnusedBlobs
  | callGetPacks
  | callCountPacks
  | callReadPacks (packs : IDSet)
  /-- A fixed `Verbosef` or `Printf` line, without its final newline. -/
  | say (text : String)
  /-- A hint printed by `Printf("%v\n", hint)`. -/
  | sayHint (hint : Hint)
  /-- An error printed by `Verbosef("%v\n", err)`. -/
  | sayErr (err : GoError)
  /-- An error printed by `Warnf`. -/
  | warnErr (err : GoError)
  /-- The line `Verbosef("%d additional files were found ...", orphanedPacks)`. -/
  | sayOrphaned (orphanedPacks : Nat)
  /-- The line `Verbosef("unused blob %v\n", id)`. -/
  | sayUnused (id : ID)
  /-- The line `read group #%d of %d data packs (out of total %d packs in %d groups)`. -/
  | sayGroup (bucket packCount countPacks totalBuckets : Nat)
  /-- The progress counter `newProgressMax(!gopts.Quiet, packCount, "packs")`. -/
  | progress (show_ : Bool) (packCount : Nat)
  deriving DecidableEq

/-- The local variables of `runCheck` other functions write, and the events so far. -/
structure St where
  errorsFound : Bool
  orphanedPacks : Nat
  log : List Event

/-- Appends events to the log. -/
def St.emit (st : St) (evs : List Event) : St :=
  { st with log := st.log ++ evs }

/-- Body of `for _, hint := range hints`: the pair is `dupFound` and the log. -/
def hintStep (acc : Bool × List Event) (hint : Hint) : Bool × List Event :=
  match hint with
  | .duplicatePacks _ => (true, acc.2 ++ [.sayHint hint])
  | .other _ => (acc.1, acc.2 ++ [.sayHint hint])

/-- Body of the loop draining the channel of `chkr.Packs`. -/
def packsStep (isOrphanedPack : GoError → Bool) (st : St) (err : GoError) : St :=
  if isOrphanedPack err = true then
    { st with orphanedPacks := st.orphanedPacks + 1, log := st.log ++ [.sayErr err] }
  else
    { st with errorsFound := true, log := st.log ++ [.warnErr err] }

/-- Body of the loop draining the channel of `chkr.Structure` (a `TreeError` and any
other error differ only in how they are printed). -/
def structureStep (st : St) (err : GoError) : St :=
  { st with errorsFound := true, log := st.log ++ [.warnErr err] }

/-- Body of `for _, id := range chkr.UnusedBlobs()`. -/
def unusedStep (st : St) (id : ID) : St :=
  { st with errorsFound := true, log := st.log ++ [.sayUnused id] }

/-- Body of the loop draining the channel of `chkr.ReadPacks`. -/
def readStep (st : St) (err : GoError) : St :=
  { st with errorsFound := true, log := st.log ++ [.warnErr err] }

/-- The closure `doReadData` of `runCheck`: the panic, if one is raised, and the
state it leaves. -/
def doReadData (arch : Arch) (env : Collab) (bucket totalBuckets : Nat) (st : St) :
    Option GoPanic × St :=
  let st := st.emit [.callGetPacks]
  match selectPacks arch bucket totalBuckets env.getPacks with
  | .error p => (some p, st)
  | .ok packs =>
    let packCount := packs.card
    let st := st.emit [.callCountPacks]
    let st :=
      if packCount < env.countPacks then
        st.emit [.callCountPacks, .sayGroup bucket packCount env.countPacks totalBuckets]
      else
        st.emit [.say "read all data"]
    let st := st.emit [.progress (!env.Quiet) packCount, .callReadPacks packs]
    (none, (env.readPacksErrs packs).foldl readStep st)

/-- How a run ends. -/
inductive Ending where
  /-- The function returns this error (`none` is nil). -/
  | returned (err : Option GoError)
  /-- The function panics. -/
  | panicked (p : GoPanic)
  deriving DecidableEq, Repr

/-- A finished run: how it ended and what it did. -/
structure Run where
  ending : Ending
  log : List Event

/-- The switch at the end of `runCheck`. -/
def dispatchReadData (arch : Arch) (opts : CheckOptions) (env : Collab) (st : St) :
    Option GoPanic × St :=
  if opts.ReadData = true then
    doReadData arch env 1 1 st
  else if opts.ReadDataSubset ≠ [] then
    -- dataSubset, _ := stringToIntSlice(opts.ReadDataSubset)
    match (stringToIntSlice arch opts.ReadDataSubset).1 with
    | [] => (some (.indexOutOfRange 0 0), st)
    | [_] => (some (.indexOutOfRange 1 1), st)
    | bucket :: totalBuckets :: _ => doReadData arch env bucket totalBuckets st
  else
    (none, st)

/-- The phases of `runCheck` between the index load and the data read: all packs,
then snapshots, trees and blobs, then the unused blobs. -/
def checkPhases (opts : CheckOptions) (env : Collab) (log : List Event) : St :=
  let st : St := { errorsFound := false, orphanedPacks := 0, log := log }
  let st := st.emit [.say "check all packs", .callPacks]
  let st := env.packsErrs.foldl (packsStep env.IsOrphanedPack) st
  let st := if st.orphanedPacks > 0 then st.emit [.sayOrphaned st.orphanedPacks] else st
  let st := st.emit [.say "check snapshots, trees and blobs", .callStructure]
  let st := env.structureErrs.foldl structureStep st
  if opts.CheckUnused = true then
    env.unusedBlobs.foldl unusedStep (st.emit [.callUnusedBlobs])
  else st

/-- The part of `runCheck` after the index is loaded without errors. -/
def runPhases (arch : Arch) (opts : CheckOptions) (env : Collab) (log : List Event) : Run :=
  match dispatchReadData arch opts env (checkPhases opts env log) with
  | (some p, st) => { ending := .panicked p, log := st.log }
  | (none, st) =>
    if st.errorsFound = true then
      { ending := .returned (some (.fatal "repository contains errors")), log := st.log }
    else
      { ending := .returned none, log := st.log ++ [.say "no errors were found"] }

/-- Go `runCheck(opts, gopts, args)`.  The cache directory (`prepareCheckCache`, the
cleanup handler) and the deferred `unlockRepo` do not touch what is modelled. -/
def runCheck (arch : Arch) (opts : CheckOptions) (env : Collab) (args : List GoString) : Run :=
  if args.length ≠ 0 then
    { ending := .returned (some (.fatal "check has no arguments")), log := [] }
  else
    let log := [Event.callOpenRepository]
    match env.openRepository with
    | some err => { ending := .returned (some err), log := log }
    | none =>
      let locked : Option GoError × List Event :=
        if env.NoLock = false then
          (env.lockRepoExclusive,
            log ++ [.say "create exclusive lock for repository", .callLockRepoExclusive])
        else (none, log)
      match locked with
      | (some err, log) => { ending := .returned (some err), log := log }
      | (none, log) =>
        let log := log ++ [.callNew, .say "load indexes", .callLoadIndex]
        let hinted := env.loadIndexHints.foldl hintStep (false, log)
        let log :=
          if hinted.1 = true then
            hinted.2 ++ [.say msgNonCritical]
          else hinted.2
        if env.loadIndexErrs.length > 0 then
          { ending := .returned (some (.fatal "LoadIndex returned errors")),
            log := log ++ env.loadIndexErrs.map .warnErr }
        else
          runPhases arch opts env log

/-- The command `cmdCheck` as the command framework runs it: `PreRunE`
(`checkFlags`) first, and `RunE` (`runCheck`) only when `PreRunE` returned nil. -/
def cmdCheck (arch : Arch) (opts : CheckOptions) (env : Collab) (args : List GoString) : Run :=
  match checkFlags arch opts with
  | some err => { ending := .returned (some err), log := [] }
  | none => runCheck arch opts env args

/-! ## Reading of the words of the specification -/

/-- A decimal digit `'0' .. '9'`. -/
def IsDigit (c : Byte) : Prop := 48 ≤ c.val ∧ c.val ≤ 57

instance (c : Byte) : Decidable (IsDigit c) :=
  inferInstanceAs (Decidable (48 ≤ c.val ∧ c.val ≤ 57))

/-- The number a string of decimal digits denotes, read from the left and starting
from `n`. -/
def decimalFrom (n : Nat) (s : GoString) : Nat :=
  s.foldl (fun acc c => 10 * acc + (c.val - 48)) n

/-- The number a string of decimal digits denotes. -/
def decimalValue (s : GoString) : Nat := decimalFrom 0 s

/-- An unsigned decimal integer: one or more decimal digits and nothing else (no
sign, no blank). -/
def IsUnsignedDecimal (s : GoString) : Prop := s ≠ [] ∧ ∀ c ∈ s, IsDigit c

instance (s : GoString) : Decidable (IsUnsignedDecimal s) :=
  @instDecidableAnd _ _ inferInstance (List.decidableBAll IsDigit s)

/-- An unsigned decimal integer whose value fits in a `uint`. -/
def FitsUint (arch : Arch) (s : GoString) : Prop :=
  IsUnsignedDecimal s ∧ decimalValue s < arch.uintCard

instance (arch : Arch) (s : GoString) : Decidable (FitsUint arch s) :=
  inferInstanceAs (Decidable (IsUnsignedDecimal s ∧ decimalValue s < arch.uintCard))

/-- Strings joined by `'/'`, as `strings.Join(parts, "/")` does. -/
def joinSlash : List GoString → GoString
  | [] => []
  | [p] => p
  | p :: q :: rest => p ++ 47 :: joinSlash (q :: rest)

/-- The byte of the decimal digit `d`. -/
def digitByte (d : Nat) : Byte := Fin.ofNat (48 + d % 10)

/-- Decimal rendering with a bound on the number of digits. -/
def renderDigits : Nat → Nat → GoString
  | 0, _ => []
  | fuel + 1, n =>
    if n < 10 then [digitByte n] else renderDigits fuel (n / 10) ++ [digitByte (n % 10)]

/-- The decimal rendering of a number, without sign and without leading zeros. -/
def decimalRendering (n : Nat) : GoString := renderDigits (n + 1) n

/-- The value of `--read-data-subset` the specification admits: exactly two
`'/'`-separated unsigned decimal integers `n` and `t` with `1 ≤ n ≤ t ≤ 256`. -/
def IsSubsetValue (s : GoString) : Prop :=
  ∃ a b : GoString, s = a ++ 47 :: b ∧ IsUnsignedDecimal a ∧ IsUnsignedDecimal b ∧
    1 ≤ decimalValue a ∧ decimalValue a ≤ decimalValue b ∧ decimalValue b ≤ 256

/-- The first byte of a pack ID, as a number. -/
def firstByte (pack : ID) : Nat := (pack.head).val

/-- The bucket of a pack as the specification defines it:
`bucket(pack) = (firstByte(packID) mod totalBuckets) + 1`. -/
def bucketOf (pack : ID) (totalBuckets : Nat) : Nat := firstByte pack % totalBuckets + 1

/-- A pack ID with a given first byte (the other bytes are zero). -/
def packWithFirstByte (b : Byte) : ID := Mathlib.Vector.cons b (Mathlib.Vector.replicate 31 0)

/-- The events of the phases between the index load and the data read, in order. -/
def phaseEvents (opts : CheckOptions) (env : Collab) : List Event :=
  [.say "check all packs", .callPacks]
    ++ env.packsErrs.map
        (fun e => if env.IsOrphanedPack e = true then Event.sayErr e else Event.warnErr e)
    ++ (if env.packsErrs.countP env.IsOrphanedPack > 0 then
          [.sayOrphaned (env.packsErrs.countP env.IsOrphanedPack)] else [])
    ++ [.say "check snapshots, trees and blobs", .callStructure]
    ++ env.structureErrs.map .warnErr
    ++ (if opts.CheckUnused = true then
          .callUnusedBlobs :: env.unusedBlobs.map .sayUnused else [])

/-- The events of one call of `doReadData` that selects `packs`, in order. -/
def readEvents (env : Collab) (bucket totalBuckets : Nat) (packs : IDSet) : List Event :=
  [.callGetPacks, .callCountPacks]
    ++ (if packs.card < env.countPacks then
          [.callCountPacks, .sayGroup bucket packs.card env.countPacks totalBuckets]
        else [.say "read all data"])
    ++ [.progress (!env.Quiet) packs.card, .callReadPacks packs]
    ++ (env.readPacksErrs packs).map .warnErr

/-- Whether a hint has the type `checker.ErrDuplicatePacks`. -/
def Hint.isDuplicatePacks : Hint → Bool
  | .duplicatePacks _ => true
  | .other _ => false

/-- The events of a run up to the end of the loop over the hints, in order. -/
def indexEvents (env : Collab) : List Event :=
  [.callOpenRepository]
    ++ (if env.NoLock = false then
          [.say "create exclusive lock for repository", .callLockRepoExclusive] else [])
    ++ [.callNew, .say "load indexes", .callLoadIndex]
    ++ env.loadIndexHints.map .sayHint
    ++ (if env.loadIndexHints.any Hint.isDuplicatePacks = true then
          [.say msgNonCritical]
        else [])

/-! ## Sample inputs -/

/-- A pack set of three packs whose first bytes are 5, 10 and 255. -/
def samplePacks : IDSet :=
  {packWithFirstByte 5, packWithFirstByte 10, packWithFirstByte 255}

/-- A repository without findings: it opens, locks and loads, every stream is empty,
and it holds the packs of `samplePacks`. -/
def quietRepo : Collab where
  openRepository := none
  NoLock := false
  Quiet := false
  lockRepoExclusive := none
  loadIndexHints := []
  loadIndexErrs := []
  IsOrphanedPack := fun _ => false
  packsErrs := []
  structureErrs := []
  unusedBlobs := []
  getPacks := samplePacks
  countPacks := 3
  readPacksErrs := fun _ => []

/-- A repository whose index fails to load, with a duplicate-packs hint. -/
def brokenIndexRepo : Collab :=
  { quietRepo with
    loadIndexHints := [.duplicatePacks (packWithFirstByte 5)]
    loadIndexErrs := [.external 1] }

/-- The options of `--read-data-subset=3`. -/
def optsSubsetThree : CheckOptions :=
  { ReadData := false, ReadDataSubset := [51], CheckUnused := false, WithCache := false }

/-- The options of `--read-data-subset=1/2`. -/
def optsSubsetOneOfTwo : CheckOptions :=
  { ReadData := false, ReadDataSubset := [49, 47, 50], CheckUnused := false, WithCache := false }

/-- The options of `--read-data-subset=1/300`. -/
def optsSubsetTooMany : CheckOptions :=
  { ReadData := false, ReadDataSubset := [49, 47, 51, 48, 48], CheckUnused := false,
    WithCache := false }

/-- The options of `--read-data`. -/
def optsReadData : CheckOptions :=
  { ReadData := true, ReadDataSubset := [], CheckUnused := false, WithCache := false }

/-- A repository whose index loads without errors but with a duplicate-packs hint,
and without any other finding. -/
def hintsOnlyRepo : Collab :=
  { quietRepo with loadIndexHints := [.duplicatePacks (packWithFirstByte 5), .other 2] }

/-- A repository whose `Structure` stream delivers one error. -/
def damagedRepo : Collab :=
  { quietRepo with structureErrs := [.external 7] }

/-- The options of `--read-data-subset=1/2/3`, which `checkFlags` rejects. -/
def optsSubsetThreeParts : CheckOptions :=
  { ReadData := false, ReadDataSubset := [49, 47, 50, 47, 51], CheckUnused := false,
    WithCache := false }

/-- The findings that make a run fail, in the words of the specification: the
`Packs` stream delivered an error that is not an orphaned-pack error; or the
`Structure` stream delivered an error; or `CheckUnused` is set and `UnusedBlobs` is
non-empty; or a data read was requested and the stream of the `ReadPacks` call of
the run delivered an error. -/
def ErrorsObserved (opts : CheckOptions) (env : Collab) (run : Run) : Prop :=
  (∃ e ∈ env.packsErrs, env.IsOrphanedPack e = false) ∨ env.structureErrs ≠ [] ∨
    (opts.CheckUnused = true ∧ env.unusedBlobs ≠ []) ∨
    ((opts.ReadData = true ∨ opts.ReadDataSubset ≠ []) ∧
      ∃ packs, Event.callReadPacks packs ∈ run.log ∧ env.readPacksErrs packs ≠ [])

/-! ## Lemmas: `ParseUint` -/

theorem decimalFrom_cons (n : Nat) (c : Byte) (cs : GoString) :
    decimalFrom n (c :: cs) = decimalFrom (10 * n + (c.val - 48)) cs := rfl

theorem le_decimalFrom (cs : GoString) (n : Nat) : n ≤ decimalFrom n cs := by
  induction cs generalizing n with
  | nil => exact Nat.le_refl n
  | cons c cs ih =>
    rw [decimalFrom_cons]
    exact Nat.le_trans (by omega) (ih _)

theorem cutoff10_eq : cutoff10 = 1844674407370955162 := by
  decide

/-- The digit loop returns the denoted number when the input is all digits and the
number does not exceed `maxVal`. -/
theorem parseUintLoop_ok (s0 : GoString) (maxVal : Nat) (hmax : maxVal < 2 ^ 64) :
    ∀ (cs : GoString) (n : Nat), (∀ c ∈ cs, IsDigit c) → decimalFrom n cs ≤ maxVal →
      parseUintLoop s0 maxVal cs n = (decimalFrom n cs, none) := by
  intro cs
  induction cs with
  | nil => intro n _ _; rfl
  | cons c cs ih =>
    intro n hd hv
    have hc : IsDigit c := hd c (List.mem_cons_self _ _)
    have hrest : ∀ x ∈ cs, IsDigit x := fun x hx => hd x (List.mem_cons_of_mem _ hx)
    rw [decimalFrom_cons] at hv
    have hstep : 10 * n + (c.val - 48) ≤ maxVal := Nat.le_trans (le_decimalFrom cs _) hv
    unfold IsDigit at hc
    have hcut : ¬ n ≥ cutoff10 := by rw [cutoff10_eq]; omega
    have h10 : (n * 10) % 2 ^ 64 = n * 10 := Nat.mod_eq_of_lt (by omega)
    have h1 : (n * 10 + (c.val - 48)) % 2 ^ 64 = 10 * n + (c.val - 48) := by
      rw [Nat.mod_eq_of_lt (by omega)]; omega
    rw [parseUintLoop, if_pos hc]
    simp only [if_neg hcut, h10, h1]
    rw [if_neg (by omega), decimalFrom_cons]
    exact ih _ hrest hv

/-- The digit loop returns an error when the input has a non-digit or the number
exceeds `maxVal`. -/
theorem parseUintLoop_err (s0 : GoString) (maxVal : Nat) :
    ∀ (cs : GoString) (n : Nat), ¬ ((∀ c ∈ cs, IsDigit c) ∧ decimalFrom n cs ≤ maxVal) →
      n ≤ maxVal → (parseUintLoop s0 maxVal cs n).2 ≠ none := by
  intro cs
  induction cs with
  | nil =>
    intro n h hn
    exact absurd ⟨by simp, hn⟩ h
  | cons c cs ih =>
    intro n h hn
    rw [parseUintLoop]
    by_cases hc : 48 ≤ c.val ∧ c.val ≤ 57
    · rw [if_pos hc]
      by_cases hcut : n ≥ cutoff10
      · rw [if_pos hcut]
        simp
      · simp only [if_neg hcut]
        rw [cutoff10_eq] at hcut
        have h10 : (n * 10) % 2 ^ 64 = n * 10 := Nat.mod_eq_of_lt (by omega)
        rw [h10]
        by_cases hov : (n * 10 + (c.val - 48)) % 2 ^ 64 < n * 10 ∨
            (n * 10 + (c.val - 48)) % 2 ^ 64 > maxVal
        · rw [if_pos hov]
          simp
        · rw [if_neg hov]
          have hn1 : (n * 10 + (c.val - 48)) % 2 ^ 64 = 10 * n + (c.val - 48) := by
            by_cases hlt : n * 10 + (c.val - 48) < 2 ^ 64
            · rw [Nat.mod_eq_of_lt hlt]; omega
            · exfalso
              apply hov
              left
              omega
          rw [hn1] at hov ⊢
          apply ih
          · intro hh
            apply h
            refine ⟨?_, ?_⟩
            · intro x hx
              rcases List.mem_cons.mp hx with rfl | hx
              · exact hc
              · exact hh.1 x hx
            · rw [decimalFrom_cons]; exact hh.2
          · omega
    · rw [if_neg hc]
      split <;> simp

theorem uintCard_pos (arch : Arch) : 0 < arch.uintCard := by
  cases arch <;> decide

theorem uintCard_le (arch : Arch) : arch.uintCard ≤ 2 ^ 64 := by
  cases arch <;> decide

theorem uintCard_gt (arch : Arch) : 2 ^ 32 ≤ arch.uintCard := by
  cases arch <;> decide

/-- A string that is an unsigned decimal integer fitting in a `uint` parses to its
value. -/
theorem ParseUint_of_fits (arch : Arch) (s : GoString) (h : FitsUint arch s) :
    ParseUint arch s = (decimalValue s, none) := by
  obtain ⟨⟨hne, hd⟩, hv⟩ := h
  have hpos := uintCard_pos arch
  have hle := uintCard_le arch
  unfold Arch.uintCard at hv hpos hle
  unfold ParseUint
  rw [if_neg hne]
  exact parseUintLoop_ok s _ (by omega) s 0 hd (by unfold decimalValue at hv; omega)

/-- Any other string makes `ParseUint` return an error. -/
theorem ParseUint_of_not_fits (arch : Arch) (s : GoString) (h : ¬ FitsUint arch s) :
    (ParseUint arch s).2 ≠ none := by
  unfold ParseUint
  by_cases hne : s = []
  · simp [if_pos hne]
  · rw [if_neg hne]
    have hpos := uintCard_pos arch
    unfold Arch.uintCard at hpos
    apply parseUintLoop_err
    · intro hh
      apply h
      refine ⟨⟨hne, hh.1⟩, ?_⟩
      have := hh.2
      unfold decimalValue Arch.uintCard
      omega
    · omega

theorem ParseUint_ok_iff (arch : Arch) (s : GoString) :
    (ParseUint arch s).2 = none ↔ FitsUint arch s := by
  constructor
  · intro h
    by_contra hn
    exact ParseUint_of_not_fits arch s hn h
  · intro h
    rw [ParseUint_of_fits arch s h]

/-! ## Lemmas: splitting and joining -/

theorem stringsSplit_ne_nil (sep : Byte) (s : GoString) : stringsSplit sep s ≠ [] := by
  cases s with
  | nil => simp [stringsSplit]
  | cons c cs =>
    rw [stringsSplit]
    split
    · simp
    · split <;> simp

theorem stringsSplit_of_not_mem (sep : Byte) (p : GoString) (h : sep ∉ p) :
    stringsSplit sep p = [p] := by
  induction p with
  | nil => rfl
  | cons c cs ih =>
    have hc : c ≠ sep := fun e => h (e ▸ List.mem_cons_self _ _)
    have hcs : sep ∉ cs := fun m => h (List.mem_cons_of_mem _ m)
    rw [stringsSplit, if_neg hc, ih hcs]

theorem stringsSplit_append_sep (sep : Byte) (p rest : GoString) (h : sep ∉ p) :
    stringsSplit sep (p ++ sep :: rest) = p :: stringsSplit sep rest := by
  induction p with
  | nil => simp [stringsSplit]
  | cons c cs ih =>
    have hc : c ≠ sep := fun e => h (e ▸ List.mem_cons_self _ _)
    have hcs : sep ∉ cs := fun m => h (List.mem_cons_of_mem _ m)
    rw [List.cons_append, stringsSplit, if_neg hc, ih hcs]

/-- Splitting inverts joining, for parts free of the separator. -/
theorem stringsSplit_joinSlash (parts : List GoString) (hne : parts ≠ [])
    (hfree : ∀ p ∈ parts, (47 : Byte) ∉ p) : stringsSplit 47 (joinSlash parts) = parts := by
  induction parts with
  | nil => exact absurd rfl hne
  | cons p rest ih =>
    cases rest with
    | nil =>
      rw [joinSlash]
      exact stringsSplit_of_not_mem 47 p (hfree p (List.mem_cons_self _ _))
    | cons q rest =>
      rw [joinSlash, stringsSplit_append_sep 47 p _ (hfree p (List.mem_cons_self _ _)),
        ih (by simp) (fun x hx => hfree x (List.mem_cons_of_mem _ hx))]

/-- Joining inverts splitting. -/
theorem joinSlash_stringsSplit (s : GoString) : joinSlash (stringsSplit 47 s) = s := by
  induction s with
  | nil => rfl
  | cons c cs ih =>
    rw [stringsSplit]
    by_cases hc : c = 47
    · rw [if_pos hc]
      rcases hsp : stringsSplit 47 cs with _ | ⟨q, rest⟩
      · exact absurd hsp (stringsSplit_ne_nil 47 cs)
      · rw [hsp] at ih
        rw [joinSlash, ih, hc]
        rfl
    · rw [if_neg hc]
      rcases hsp : stringsSplit 47 cs with _ | ⟨q, rest⟩
      · exact absurd hsp (stringsSplit_ne_nil 47 cs)
      · rw [hsp] at ih
        cases rest with
        | nil =>
          simp only [joinSlash] at ih ⊢
          rw [ih]
        | cons r rest =>
          simp only [joinSlash] at ih ⊢
          rw [List.cons_append, ih]

/-- The parts of a split are free of the separator. -/
theorem not_mem_of_mem_stringsSplit (sep : Byte) (s : GoString) :
    ∀ p ∈ stringsSplit sep s, sep ∉ p := by
  induction s with
  | nil => simp [stringsSplit]
  | cons c cs ih =>
    rw [stringsSplit]
    by_cases hc : c = sep
    · rw [if_pos hc]
      intro p hp
      rcases List.mem_cons.mp hp with rfl | hp
      · simp
      · exact ih p hp
    · rw [if_neg hc]
      rcases hsp : stringsSplit sep cs with _ | ⟨q, rest⟩
      · exact absurd hsp (stringsSplit_ne_nil sep cs)
      · rw [hsp] at ih
        intro p hp
        rcases List.mem_cons.mp hp with rfl | hp
        · intro hm
          rcases List.mem_cons.mp hm with e | hm
          · exact hc e.symm
          · exact ih q (List.mem_cons_self _ _) hm
        · exact ih p (List.mem_cons_of_mem _ hp)

theorem not_slash_of_isDigit (c : Byte) (h : IsDigit c) : c ≠ 47 := by
  rintro rfl
  revert h
  decide

theorem slash_not_mem_of_isUnsignedDecimal (s : GoString) (h : IsUnsignedDecimal s) :
    (47 : Byte) ∉ s := fun hm => not_slash_of_isDigit 47 (h.2 47 hm) rfl

/-! ## Lemmas: `stringToIntSlice` -/

theorem take_succ_set (v : Nat) : ∀ (result : List Nat) (idx : Nat), idx < result.length →
    (result.set idx v).take (idx + 1) = result.take idx ++ [v] := by
  intro result
  induction result with
  | nil => intro idx h; simp at h
  | cons x xs ih =>
    intro idx h
    cases idx with
    | zero => simp
    | succ k =>
      have hk : k < xs.length := by simpa using h
      simp [ih k hk]

/-- When every part fits, the loop fills the slots from `idx` on with the values. -/
theorem stringToIntSliceLoop_ok (arch : Arch) :
    ∀ (parts : List GoString) (idx : Nat) (result : List Nat),
      (∀ p ∈ parts, FitsUint arch p) → result.length = idx + parts.length →
      stringToIntSliceLoop arch parts idx result
        = (result.take idx ++ parts.map decimalValue, none) := by
  intro parts
  induction parts with
  | nil =>
    intro idx result _ hlen
    have : result.take idx = result := List.take_of_length_le (by simp at hlen; omega)
    simp [stringToIntSliceLoop, this]
  | cons part rest ih =>
    intro idx result hfit hlen
    have hp : FitsUint arch part := hfit part (List.mem_cons_self _ _)
    have hmod : decimalValue part % arch.uintCard = decimalValue part :=
      Nat.mod_eq_of_lt hp.2
    have hidx : idx < result.length := by simp at hlen; omega
    rw [stringToIntSliceLoop, ParseUint_of_fits arch part hp]
    simp only [hmod]
    rw [ih (idx + 1) _ (fun x hx => hfit x (List.mem_cons_of_mem _ hx))
      (by simp at hlen ⊢; omega), take_succ_set _ _ _ hidx]
    simp

/-- When a part does not fit, the loop returns the nil slice and an error. -/
theorem stringToIntSliceLoop_err (arch : Arch) :
    ∀ (parts : List GoString) (idx : Nat) (result : List Nat),
      (∃ p ∈ parts, ¬ FitsUint arch p) →
      (stringToIntSliceLoop arch parts idx result).1 = [] ∧
        (stringToIntSliceLoop arch parts idx result).2 ≠ none := by
  intro parts
  induction parts with
  | nil => intro idx result h; obtain ⟨p, hp, _⟩ := h; simp at hp
  | cons part rest ih =>
    intro idx result h
    rw [stringToIntSliceLoop]
    rcases hparse : ParseUint arch part with ⟨v, _ | err⟩
    · simp only
      apply ih
      obtain ⟨p, hp, hbad⟩ := h
      rcases List.mem_cons.mp hp with rfl | hp
      · exact absurd ((ParseUint_ok_iff arch p).mp (by rw [hparse])) hbad
      · exact ⟨p, hp, hbad⟩
    · simp

theorem stringToIntSlice_ok (arch : Arch) (s : GoString) (hne : s ≠ [])
    (h : ∀ p ∈ stringsSplit 47 s, FitsUint arch p) :
    stringToIntSlice arch s = ((stringsSplit 47 s).map decimalValue, none) := by
  unfold stringToIntSlice
  rw [if_neg hne]
  simp only
  rw [stringToIntSliceLoop_ok arch _ 0 _ h (by simp)]
  simp

theorem stringToIntSlice_err (arch : Arch) (s : GoString) (hne : s ≠ [])
    (h : ∃ p ∈ stringsSplit 47 s, ¬ FitsUint arch p) :
    (stringToIntSlice arch s).1 = [] ∧ (stringToIntSlice arch s).2 ≠ none := by
  unfold stringToIntSlice
  rw [if_neg hne]
  exact stringToIntSliceLoop_err arch _ 0 _ h

/-- The whole behaviour of `stringToIntSlice` on a non-empty string. -/
theorem stringToIntSlice_eq (arch : Arch) (s : GoString) (hne : s ≠ []) :
    (stringToIntSlice arch s = ((stringsSplit 47 s).map decimalValue, none) ∧
        ∀ p ∈ stringsSplit 47 s, FitsUint arch p) ∨
      ((stringToIntSlice arch s).1 = [] ∧ (stringToIntSlice arch s).2 ≠ none ∧
        ∃ p ∈ stringsSplit 47 s, ¬ FitsUint arch p) := by
  by_cases h : ∀ p ∈ stringsSplit 47 s, FitsUint arch p
  · exact Or.inl ⟨stringToIntSlice_ok arch s hne h, h⟩
  · right
    have h2 : ∃ p ∈ stringsSplit 47 s, ¬ FitsUint arch p := by
      by_contra hcon
      apply h
      intro p hp
      by_contra hp2
      exact hcon ⟨p, hp, hp2⟩
    exact ⟨(stringToIntSlice_err arch s hne h2).1, (stringToIntSlice_err arch s hne h2).2, h2⟩

/-! ## Lemmas: decimal rendering -/

theorem digitByte_val (d : Nat) : (digitByte d).val = 48 + d % 10 := by
  show (48 + d % 10) % 256 = 48 + d % 10
  omega

theorem isDigit_digitByte (d : Nat) : IsDigit (digitByte d) := by
  unfold IsDigit
  rw [digitByte_val]
  omega

theorem decimalFrom_append_singleton (n : Nat) (xs : GoString) (c : Byte) :
    decimalFrom n (xs ++ [c]) = 10 * decimalFrom n xs + (c.val - 48) := by
  simp [decimalFrom, List.foldl_append]

theorem isDigit_of_mem_renderDigits : ∀ (fuel n : Nat), ∀ c ∈ renderDigits fuel n, IsDigit c := by
  intro fuel
  induction fuel with
  | zero => intro n c hc; simp [renderDigits] at hc
  | succ f ih =>
    intro n c hc
    rw [renderDigits] at hc
    split at hc
    · rw [List.mem_singleton] at hc
      rw [hc]
      exact isDigit_digitByte n
    · rcases List.mem_append.mp hc with h | h
      · exact ih _ c h
      · rw [List.mem_singleton] at h
        rw [h]
        exact isDigit_digitByte _

theorem renderDigits_ne_nil (fuel n : Nat) : renderDigits (fuel + 1) n ≠ [] := by
  rw [renderDigits]
  split <;> simp

theorem decimalValue_renderDigits : ∀ (fuel n : Nat), n < fuel →
    decimalValue (renderDigits fuel n) = n := by
  intro fuel
  induction fuel with
  | zero => intro n h; omega
  | succ f ih =>
    intro n h
    rw [renderDigits]
    split
    · rename_i hlt
      simp only [decimalValue, decimalFrom, List.foldl_cons, List.foldl_nil]
      rw [digitByte_val]
      omega
    · rename_i hge
      unfold decimalValue at ih ⊢
      rw [decimalFrom_append_singleton, ih (n / 10) (by omega), digitByte_val]
      omega

theorem isUnsignedDecimal_decimalRendering (n : Nat) : IsUnsignedDecimal (decimalRendering n) :=
  ⟨renderDigits_ne_nil n n, isDigit_of_mem_renderDigits _ _⟩

theorem decimalValue_decimalRendering (n : Nat) : decimalValue (decimalRendering n) = n :=
  decimalValue_renderDigits _ _ (Nat.lt_succ_self n)

theorem fitsUint_decimalRendering (arch : Arch) (n : Nat) (h : n < arch.uintCard) :
    FitsUint arch (decimalRendering n) :=
  ⟨isUnsignedDecimal_decimalRendering n, by rw [decimalValue_decimalRendering]; exact h⟩

theorem joinSlash_ne_nil (parts : List GoString) (hne : parts ≠ [])
    (h : ∀ p ∈ parts, p ≠ []) : joinSlash parts ≠ [] := by
  cases parts with
  | nil => exact absurd rfl hne
  | cons p rest =>
    cases rest with
    | nil => rw [joinSlash]; exact h p (List.mem_cons_self _ _)
    | cons q rest =>
      rw [joinSlash]
      intro e
      exact h p (List.mem_cons_self _ _) (List.append_eq_nil.mp e).1

/-! ## Lemmas: `checkFlags` -/

/-- What `checkFlags` has established when it returns nil on a non-empty subset. -/
theorem checkFlags_none_inv (arch : Arch) (opts : CheckOptions)
    (h : checkFlags arch opts = none) (hne : opts.ReadDataSubset ≠ []) :
    opts.ReadData = false ∧ ∃ n t, stringToIntSlice arch opts.ReadDataSubset = ([n, t], none) ∧
      1 ≤ n ∧ n ≤ t ∧ t ≤ 256 := by
  unfold checkFlags at h
  by_cases h1 : opts.ReadData = true ∧ opts.ReadDataSubset ≠ []
  · rw [if_pos h1] at h
    exact absurd h (by simp)
  · rw [if_neg h1, if_pos hne] at h
    have hrd : opts.ReadData = false := by
      cases hr : opts.ReadData
      · rfl
      · exact absurd ⟨hr, hne⟩ h1
    refine ⟨hrd, ?_⟩
    split at h
    · rename_i n t heq
      refine ⟨n, t, heq, ?_⟩
      by_cases h2 : n = 0 ∨ t = 0 ∨ n > t
      · rw [if_pos h2] at h
        exact absurd h (by simp)
      · rw [if_neg h2] at h
        by_cases h3 : t > totalBucketsMax
        · rw [if_pos h3] at h
          exact absurd h (by simp)
        · unfold totalBucketsMax at h3
          omega
    · exact absurd h (by simp)

/-- The converse: a parse into two values in range makes `checkFlags` return nil. -/
theorem checkFlags_none_of_parse (arch : Arch) (opts : CheckOptions) (n t : Nat)
    (hrd : opts.ReadData = false)
    (hp : stringToIntSlice arch opts.ReadDataSubset = ([n, t], none))
    (h1 : 1 ≤ n) (h2 : n ≤ t) (h3 : t ≤ 256) : checkFlags arch opts = none := by
  unfold checkFlags
  rw [if_neg (by simp [hrd])]
  by_cases hne : opts.ReadDataSubset ≠ []
  · rw [if_pos hne, hp]
    simp only
    rw [if_neg (by omega), if_neg (by unfold totalBucketsMax; omega)]
  · rw [if_neg hne]

/-- A string of the admitted form splits into its two numbers. -/
theorem stringsSplit_of_two (a b : GoString) (ha : IsUnsignedDecimal a)
    (hb : IsUnsignedDecimal b) : stringsSplit 47 (a ++ 47 :: b) = [a, b] := by
  rw [stringsSplit_append_sep 47 a b (slash_not_mem_of_isUnsignedDecimal a ha),
    stringsSplit_of_not_mem 47 b (slash_not_mem_of_isUnsignedDecimal b hb)]

/-- A successful parse into two values comes from a string `a/b` of two numbers that
fit in a `uint`. -/
theorem parse_two_inv (arch : Arch) (s : GoString) (n t : Nat) (hne : s ≠ [])
    (hp : stringToIntSlice arch s = ([n, t], none)) :
    ∃ a b : GoString, s = a ++ 47 :: b ∧ FitsUint arch a ∧ FitsUint arch b ∧
      decimalValue a = n ∧ decimalValue b = t := by
  rcases stringToIntSlice_eq arch s hne with ⟨heq, hfit⟩ | ⟨_, herr, _⟩
  · rw [hp] at heq
    have hmap : (stringsSplit 47 s).map decimalValue = [n, t] := (Prod.mk.inj heq).1.symm
    rcases hsp : stringsSplit 47 s with _ | ⟨a, _ | ⟨b, _ | ⟨c, rest⟩⟩⟩
    · rw [hsp] at hmap; simp at hmap
    · rw [hsp] at hmap; simp at hmap
    · rw [hsp] at hmap hfit
      simp only [List.map_cons, List.map_nil, List.cons.injEq, and_true] at hmap
      have hj := joinSlash_stringsSplit s
      rw [hsp] at hj
      simp only [joinSlash] at hj
      exact ⟨a, b, hj.symm, hfit a (by simp), hfit b (by simp), hmap.1, hmap.2⟩
    · rw [hsp] at hmap; simp at hmap
  · rw [hp] at herr
    exact absurd rfl herr

/-- A string `a/b` of two numbers that fit in a `uint` parses into their values. -/
theorem parse_of_two (arch : Arch) (a b : GoString) (ha : FitsUint arch a)
    (hb : FitsUint arch b) :
    stringToIntSlice arch (a ++ 47 :: b) = ([decimalValue a, decimalValue b], none) := by
  have hsp := stringsSplit_of_two a b ha.1 hb.1
  rw [stringToIntSlice_ok arch _ (by simp) (by
    rw [hsp]
    intro p hp
    rcases List.mem_cons.mp hp with rfl | hp
    · exact ha
    · rw [List.mem_singleton] at hp
      rw [hp]
      exact hb), hsp]
  rfl

theorem fitsUint_of_le (arch : Arch) (a : GoString) (ha : IsUnsignedDecimal a)
    (h : decimalValue a ≤ 256) : FitsUint arch a := by
  refine ⟨ha, ?_⟩
  have := uintCard_gt arch
  omega

/-- The acceptance condition of `checkFlags`. -/
theorem checkFlags_eq_none_iff (arch : Arch) (opts : CheckOptions) :
    checkFlags arch opts = none ↔
      opts.ReadDataSubset = [] ∨
        (opts.ReadData = false ∧ IsSubsetValue opts.ReadDataSubset) := by
  constructor
  · intro h
    by_cases hne : opts.ReadDataSubset = []
    · exact Or.inl hne
    · right
      obtain ⟨hrd, n, t, hp, h1, h2, h3⟩ := checkFlags_none_inv arch opts h hne
      obtain ⟨a, b, hs, ha, hb, hva, hvb⟩ := parse_two_inv arch _ n t hne hp
      exact ⟨hrd, a, b, hs, ha.1, hb.1, by omega, by omega, by omega⟩
  · rintro (hempty | ⟨hrd, a, b, hs, ha, hb, h1, h2, h3⟩)
    · unfold checkFlags
      rw [if_neg (by simp [hempty]), if_neg (by simp [hempty])]
    · apply checkFlags_none_of_parse arch opts (decimalValue a) (decimalValue b) hrd _ h1 h2 h3
      rw [hs]
      exact parse_of_two arch a b (fitsUint_of_le arch a ha (by omega))
        (fitsUint_of_le arch b hb h3)

/-! ## Lemmas: pack selection -/

theorem firstByte_lt (pack : ID) : firstByte pack < 256 := (pack.head).isLt

theorem firstByte_packWithFirstByte (b : Byte) : firstByte (packWithFirstByte b) = b.val := by
  simp [firstByte, packWithFirstByte]

/-- For a bucket that is a positive `uint`, `bucket - 1` does not wrap around and the
test of `doReadData` is the bucket formula. -/
theorem packSelected_iff (arch : Arch) (bucket totalBuckets : Nat) (pack : ID)
    (h1 : 1 ≤ bucket) (hu : bucket < arch.uintCard) :
    packSelected arch bucket totalBuckets pack = true ↔ bucketOf pack totalBuckets = bucket := by
  have hsub : (bucket + arch.uintCard - 1) % arch.uintCard = bucket - 1 := by
    have e : bucket + arch.uintCard - 1 = (bucket - 1) + arch.uintCard := by omega
    rw [e, Nat.add_mod_right, Nat.mod_eq_of_lt (by omega)]
  unfold packSelected bucketOf firstByte
  rw [decide_eq_true_iff, hsub]
  omega

theorem selectPacks_of_ne_zero (arch : Arch) (bucket totalBuckets : Nat) (allPacks : IDSet)
    (h : totalBuckets ≠ 0) :
    selectPacks arch bucket totalBuckets allPacks
      = .ok (allPacks.filter (fun pack => packSelected arch bucket totalBuckets pack = true)) := by
  unfold selectPacks
  rw [if_neg h]

theorem bucketOf_mem_Icc (pack : ID) (t : Nat) (h : 1 ≤ t) :
    1 ≤ bucketOf pack t ∧ bucketOf pack t ≤ t := by
  unfold bucketOf
  have := Nat.mod_lt (firstByte pack) (show 0 < t by omega)
  omega

theorem lt_uintCard_of_le (arch : Arch) (b : Nat) (h : b ≤ 256) : b < arch.uintCard := by
  have := uintCard_gt arch
  omega

/-! ## Lemmas: the loops of `runCheck` -/

theorem hint_fold_log (hints : List Hint) : ∀ (acc : Bool × List Event),
    (hints.foldl hintStep acc).2 = acc.2 ++ hints.map .sayHint := by
  induction hints with
  | nil => intro acc; simp
  | cons h hs ih =>
    intro acc
    rw [List.foldl_cons, ih]
    cases h <;> simp [hintStep]

theorem packs_fold_log (f : GoError → Bool) (errs : List GoError) : ∀ (st : St),
    (errs.foldl (packsStep f) st).log
      = st.log ++ errs.map (fun e => if f e = true then Event.sayErr e else Event.warnErr e) := by
  induction errs with
  | nil => intro st; simp
  | cons e es ih =>
    intro st
    rw [List.foldl_cons, ih]
    by_cases he : f e = true <;> simp [packsStep, he]

theorem packs_fold_errorsFound (f : GoError → Bool) (errs : List GoError) : ∀ (st : St),
    (errs.foldl (packsStep f) st).errorsFound = true ↔
      st.errorsFound = true ∨ ∃ e ∈ errs, f e = false := by
  induction errs with
  | nil => intro st; simp
  | cons e es ih =>
    intro st
    rw [List.foldl_cons, ih]
    by_cases he : f e = true
    · simp [packsStep, he]
    · have he2 : f e = false := by simpa using he
      simp [packsStep, he2]

theorem structure_fold_log (errs : List GoError) : ∀ (st : St),
    (errs.foldl structureStep st).log = st.log ++ errs.map .warnErr := by
  induction errs with
  | nil => intro st; simp
  | cons e es ih => intro st; rw [List.foldl_cons, ih]; simp [structureStep]

theorem structure_fold_errorsFound (errs : List GoError) : ∀ (st : St),
    (errs.foldl structureStep st).errorsFound = true ↔ st.errorsFound = true ∨ errs ≠ [] := by
  induction errs with
  | nil => intro st; simp
  | cons e es ih => intro st; rw [List.foldl_cons, ih]; simp [structureStep]

theorem unused_fold_log (ids : List ID) : ∀ (st : St),
    (ids.foldl unusedStep st).log = st.log ++ ids.map .sayUnused := by
  induction ids with
  | nil => intro st; simp
  | cons e es ih => intro st; rw [List.foldl_cons, ih]; simp [unusedStep]

theorem unused_fold_errorsFound (ids : List ID) : ∀ (st : St),
    (ids.foldl unusedStep st).errorsFound = true ↔ st.errorsFound = true ∨ ids ≠ [] := by
  induction ids with
  | nil => intro st; simp
  | cons e es ih => intro st; rw [List.foldl_cons, ih]; simp [unusedStep]

theorem read_fold_log (errs : List GoError) : ∀ (st : St),
    (errs.foldl readStep st).log = st.log ++ errs.map .warnErr := by
  induction errs with
  | nil => intro st; simp
  | cons e es ih => intro st; rw [List.foldl_cons, ih]; simp [readStep]

theorem read_fold_errorsFound (errs : List GoError) : ∀ (st : St),
    (errs.foldl readStep st).errorsFound = true ↔ st.errorsFound = true ∨ errs ≠ [] := by
  induction errs with
  | nil => intro st; simp
  | cons e es ih => intro st; rw [List.foldl_cons, ih]; simp [readStep]

theorem packs_fold_orphaned (f : GoError → Bool) (errs : List GoError) : ∀ (st : St),
    (errs.foldl (packsStep f) st).orphanedPacks = st.orphanedPacks + errs.countP f := by
  induction errs with
  | nil => intro st; simp
  | cons e es ih =>
    intro st
    rw [List.foldl_cons, ih]
    by_cases he : f e = true
    · simp [packsStep, he]; omega
    · simp [packsStep, he]

/-! ## Lemmas: the phases before the data read -/

theorem checkPhases_errorsFound (opts : CheckOptions) (env : Collab) (log : List Event) :
    (checkPhases opts env log).errorsFound = true ↔
      (∃ e ∈ env.packsErrs, env.IsOrphanedPack e = false) ∨ env.structureErrs ≠ [] ∨
        (opts.CheckUnused = true ∧ env.unusedBlobs ≠ []) := by
  unfold checkPhases
  by_cases hu : opts.CheckUnused = true
  · simp only [if_pos hu]
    rw [unused_fold_errorsFound]
    simp only [St.emit]
    rw [structure_fold_errorsFound]
    split <;> simp [packs_fold_errorsFound, or_assoc, hu]
  · simp only [if_neg hu]
    rw [structure_fold_errorsFound]
    simp only [St.emit]
    split <;> simp [packs_fold_errorsFound, hu]

theorem checkPhases_log (opts : CheckOptions) (env : Collab) (log : List Event) :
    (checkPhases opts env log).log = log ++ phaseEvents opts env := by
  unfold checkPhases phaseEvents
  by_cases hu : opts.CheckUnused = true
  · simp only [if_pos hu]
    rw [unused_fold_log]
    simp only [St.emit]
    rw [structure_fold_log]
    simp only [packs_fold_orphaned, Nat.zero_add]
    split <;> simp [packs_fold_log]
  · simp only [if_neg hu]
    rw [structure_fold_log]
    simp only [St.emit, packs_fold_orphaned, Nat.zero_add]
    split <;> simp [packs_fold_log]

theorem callPacks_mem_phaseEvents (opts : CheckOptions) (env : Collab) :
    Event.callPacks ∈ phaseEvents opts env := by
  simp [phaseEvents]

theorem callStructure_mem_phaseEvents (opts : CheckOptions) (env : Collab) :
    Event.callStructure ∈ phaseEvents opts env := by
  simp [phaseEvents]

theorem callReadPacks_not_mem_phaseEvents (opts : CheckOptions) (env : Collab) (packs : IDSet) :
    Event.callReadPacks packs ∉ phaseEvents opts env := by
  unfold phaseEvents
  simp only [List.mem_append, List.mem_map, not_or]
  refine ⟨⟨⟨⟨⟨by simp, ?_⟩, ?_⟩, by simp⟩, by simp⟩, ?_⟩
  · rintro ⟨e, _, he⟩
    split at he <;> simp at he
  · split <;> simp
  · split <;> simp

/-! ## Lemmas: the data read -/

theorem callReadPacks_mem_readEvents (env : Collab) (b t : Nat) (packs q : IDSet) :
    Event.callReadPacks q ∈ readEvents env b t packs ↔ q = packs := by
  unfold readEvents
  split <;> simp

theorem doReadData_of_ok (arch : Arch) (env : Collab) (b t : Nat) (st : St) (packs : IDSet)
    (h : selectPacks arch b t env.getPacks = .ok packs) :
    (doReadData arch env b t st).1 = none ∧
      ((doReadData arch env b t st).2.errorsFound = true ↔
        st.errorsFound = true ∨ env.readPacksErrs packs ≠ []) ∧
      (doReadData arch env b t st).2.log = st.log ++ readEvents env b t packs := by
  unfold doReadData
  simp only [h]
  refine ⟨trivial, ?_, ?_⟩
  · rw [read_fold_errorsFound]
    split <;> simp [St.emit]
  · rw [read_fold_log]
    unfold readEvents
    split <;> simp [St.emit]

theorem doReadData_of_error (arch : Arch) (env : Collab) (b t : Nat) (st : St) (p : GoPanic)
    (h : selectPacks arch b t env.getPacks = .error p) :
    (doReadData arch env b t st).1 = some p := by
  unfold doReadData
  simp only [h]

/-- What a data-read dispatch that does not panic has done. -/
theorem dispatch_of_none (arch : Arch) (opts : CheckOptions) (env : Collab) (st : St)
    (h : (dispatchReadData arch opts env st).1 = none)
    (hno : ∀ q, Event.callReadPacks q ∉ st.log) :
    ((dispatchReadData arch opts env st).2.errorsFound = true ↔
        st.errorsFound = true ∨
          ((opts.ReadData = true ∨ opts.ReadDataSubset ≠ []) ∧
            ∃ packs, Event.callReadPacks packs ∈ (dispatchReadData arch opts env st).2.log ∧
              env.readPacksErrs packs ≠ [])) ∧
      (∀ e ∈ st.log, e ∈ (dispatchReadData arch opts env st).2.log) := by
  have key : ∀ b t, (doReadData arch env b t st).1 = none →
      (opts.ReadData = true ∨ opts.ReadDataSubset ≠ []) →
      ((doReadData arch env b t st).2.errorsFound = true ↔
        st.errorsFound = true ∨
          ((opts.ReadData = true ∨ opts.ReadDataSubset ≠ []) ∧
            ∃ packs, Event.callReadPacks packs ∈ (doReadData arch env b t st).2.log ∧
              env.readPacksErrs packs ≠ [])) ∧
      (∀ e ∈ st.log, e ∈ (doReadData arch env b t st).2.log) := by
    intro b t hnone hreq
    rcases hsel : selectPacks arch b t env.getPacks with p | packs
    · rw [doReadData_of_error arch env b t st p hsel] at hnone
      exact absurd hnone (by simp)
    · obtain ⟨_, hef, hlog⟩ := doReadData_of_ok arch env b t st packs hsel
      rw [hef, hlog]
      refine ⟨?_, fun e he => List.mem_append_left _ he⟩
      constructor
      · rintro (h1 | h2)
        · exact Or.inl h1
        · exact Or.inr ⟨hreq, packs, List.mem_append_right _
            ((callReadPacks_mem_readEvents env b t packs packs).mpr rfl), h2⟩
      · rintro (h1 | ⟨_, q, hq, herr⟩)
        · exact Or.inl h1
        · right
          rcases List.mem_append.mp hq with hq | hq
          · exact absurd hq (hno q)
          · rw [(callReadPacks_mem_readEvents env b t packs q).mp hq] at herr
            exact herr
  unfold dispatchReadData at h ⊢
  by_cases hrd : opts.ReadData = true
  · rw [if_pos hrd] at h ⊢
    exact key 1 1 h (Or.inl hrd)
  · rw [if_neg hrd] at h ⊢
    by_cases hne : opts.ReadDataSubset ≠ []
    · rw [if_pos hne] at h ⊢
      rcases hp : (stringToIntSlice arch opts.ReadDataSubset).1 with _ | ⟨b, _ | ⟨t, rest⟩⟩
      · rw [hp] at h; exact absurd h (by simp)
      · rw [hp] at h; exact absurd h (by simp)
      · rw [hp] at h
        simp only at h ⊢
        exact key b t h (Or.inr hne)
    · rw [if_neg hne]
      have hne2 : opts.ReadDataSubset = [] := by simpa using hne
      simp [hrd, hne2]

/-- Options that `checkFlags` accepted make the data-read dispatch call `doReadData`
with a bucket and a bucket count in range, or not at all. -/
theorem dispatch_of_checkFlags (arch : Arch) (opts : CheckOptions) (env : Collab) (st : St)
    (h : checkFlags arch opts = none) :
    (opts.ReadData = false ∧ opts.ReadDataSubset = [] ∧
        dispatchReadData arch opts env st = (none, st)) ∨
      ∃ n t, 1 ≤ n ∧ n ≤ t ∧ t ≤ 256 ∧
        dispatchReadData arch opts env st = doReadData arch env n t st := by
  by_cases hne : opts.ReadDataSubset = []
  · by_cases hrd : opts.ReadData = true
    · right
      refine ⟨1, 1, by omega, by omega, by omega, ?_⟩
      unfold dispatchReadData
      rw [if_pos hrd]
    · left
      have hrd2 : opts.ReadData = false := by simpa using hrd
      refine ⟨hrd2, hne, ?_⟩
      unfold dispatchReadData
      rw [if_neg hrd, if_neg (by simp [hne])]
  · right
    obtain ⟨hrd, n, t, hp, h1, h2, h3⟩ := checkFlags_none_inv arch opts h hne
    refine ⟨n, t, h1, h2, h3, ?_⟩
    unfold dispatchReadData
    rw [if_neg (by simp [hrd]), if_pos hne, hp]

theorem doReadData_no_panic (arch : Arch) (env : Collab) (n t : Nat) (st : St) (ht : 1 ≤ t) :
    (doReadData arch env n t st).1 = none := by
  have hsel := selectPacks_of_ne_zero arch n t env.getPacks (by omega)
  exact (doReadData_of_ok arch env n t st _ hsel).1

theorem dispatch_no_panic (arch : Arch) (opts : CheckOptions) (env : Collab) (st : St)
    (h : checkFlags arch opts = none) : (dispatchReadData arch opts env st).1 = none := by
  rcases dispatch_of_checkFlags arch opts env st h with ⟨_, _, heq⟩ | ⟨n, t, h1, h2, _, heq⟩
  · rw [heq]
  · rw [heq]
    exact doReadData_no_panic arch env n t st (by omega)

/-! ## Lemmas: `runPhases` and `runCheck` -/

/-- The verdict of the phases after the index load, for a run whose data-read
dispatch does not panic. -/
theorem runPhases_of_none (arch : Arch) (opts : CheckOptions) (env : Collab) (log : List Event)
    (hno : ∀ q, Event.callReadPacks q ∉ log)
    (hsafe : (dispatchReadData arch opts env (checkPhases opts env log)).1 = none) :
    ((runPhases arch opts env log).ending
          = .returned (some (.fatal "repository contains errors")) ↔
        ((∃ e ∈ env.packsErrs, env.IsOrphanedPack e = false) ∨ env.structureErrs ≠ [] ∨
          (opts.CheckUnused = true ∧ env.unusedBlobs ≠ []) ∨
          ((opts.ReadData = true ∨ opts.ReadDataSubset ≠ []) ∧
            ∃ packs, Event.callReadPacks packs ∈ (runPhases arch opts env log).log ∧
              env.readPacksErrs packs ≠ []))) ∧
      ((runPhases arch opts env log).ending
          = .returned (some (.fatal "repository contains errors")) ∨
        (runPhases arch opts env log).ending = .returned none) ∧
      (∀ e ∈ log ++ phaseEvents opts env, e ∈ (runPhases arch opts env log).log) := by
  have hno2 : ∀ q, Event.callReadPacks q ∉ (checkPhases opts env log).log := by
    intro q
    rw [checkPhases_log]
    intro hm
    rcases List.mem_append.mp hm with hm | hm
    · exact hno q hm
    · exact callReadPacks_not_mem_phaseEvents opts env q hm
  obtain ⟨hef, hsub⟩ := dispatch_of_none arch opts env _ hsafe hno2
  rw [checkPhases_errorsFound] at hef
  rw [checkPhases_log] at hsub
  unfold runPhases
  rcases hd : dispatchReadData arch opts env (checkPhases opts env log) with ⟨_ | p, st⟩
  · rw [hd] at hef hsub
    simp only at hef hsub ⊢
    by_cases hfound : st.errorsFound = true
    · rw [if_pos hfound]
      refine ⟨?_, Or.inl rfl, hsub⟩
      simp only [true_iff]
      rcases hef.mp hfound with (h1 | h2 | h3) | h4
      · exact Or.inl h1
      · exact Or.inr (Or.inl h2)
      · exact Or.inr (Or.inr (Or.inl h3))
      · exact Or.inr (Or.inr (Or.inr h4))
    · rw [if_neg hfound]
      refine ⟨?_, Or.inr rfl, fun e he => List.mem_append_left _ (hsub e he)⟩
      simp only [Ending.returned.injEq, reduceCtorEq, false_iff]
      intro hv
      apply hfound
      apply hef.mpr
      rcases hv with h1 | h2 | h3 | ⟨hreq, packs, hmem, herr⟩
      · exact Or.inl (Or.inl h1)
      · exact Or.inl (Or.inr (Or.inl h2))
      · exact Or.inl (Or.inr (Or.inr h3))
      · right
        refine ⟨hreq, packs, ?_, herr⟩
        rcases List.mem_append.mp hmem with hm | hm
        · exact hm
        · simp at hm
  · rw [hd] at hsafe
    exact absurd hsafe (by simp)

/-- A run that does not reach the index load returns an error and calls nothing of
the checker. -/
theorem runCheck_early (arch : Arch) (opts : CheckOptions) (env : Collab) (args : List GoString)
    (h : ¬ (args = [] ∧ env.openRepository = none ∧
      (env.NoLock = true ∨ env.lockRepoExclusive = none))) :
    (∃ err, (runCheck arch opts env args).ending = .returned (some err)) ∧
      (∀ e ∈ (runCheck arch opts env args).log,
        e = .callOpenRepository ∨ e = .say "create exclusive lock for repository" ∨
          e = .callLockRepoExclusive) ∧
      ∀ hints, runCheck arch opts { env with loadIndexHints := hints } args
        = runCheck arch opts env args := by
  unfold runCheck
  by_cases ha : args.length ≠ 0
  · rw [if_pos ha]
    exact ⟨⟨_, rfl⟩, by simp, fun _ => by rw [if_pos ha]⟩
  · rw [if_neg ha]
    have ha2 : args = [] := List.length_eq_zero.mp (by omega)
    rcases ho : env.openRepository with _ | err
    · simp only
      cases hl : env.NoLock
      · rcases hk : env.lockRepoExclusive with _ | err
        · exact absurd ⟨ha2, ho, Or.inr hk⟩ h
        · simp only [if_true]
          exact ⟨⟨_, rfl⟩, by simp, fun _ => by rw [if_neg ha]⟩
      · exact absurd ⟨ha2, ho, Or.inl hl⟩ h
    · simp only
      exact ⟨⟨_, rfl⟩, by simp, fun _ => by rw [if_neg ha]⟩

theorem hint_fold_flag (hints : List Hint) : ∀ (acc : Bool × List Event),
    (hints.foldl hintStep acc).1 = (acc.1 || hints.any Hint.isDuplicatePacks) := by
  induction hints with
  | nil => intro acc; simp
  | cons h hs ih =>
    intro acc
    rw [List.foldl_cons, ih]
    cases h <;> simp [hintStep, Hint.isDuplicatePacks]

/-- A run that reaches the index load: what it returns and what it has done. -/
theorem runCheck_late (arch : Arch) (opts : CheckOptions) (env : Collab) (args : List GoString)
    (ha : args = []) (ho : env.openRepository = none)
    (hl : env.NoLock = true ∨ env.lockRepoExclusive = none) :
    (env.loadIndexErrs ≠ [] →
        (runCheck arch opts env args).ending
            = .returned (some (.fatal "LoadIndex returned errors")) ∧
          (runCheck arch opts env args).log
            = indexEvents env ++ env.loadIndexErrs.map .warnErr) ∧
      (env.loadIndexErrs = [] →
        runCheck arch opts env args = runPhases arch opts env (indexEvents env)) := by
  have hlen : env.loadIndexErrs.length > 0 ↔ env.loadIndexErrs ≠ [] := by
    cases env.loadIndexErrs <;> simp
  unfold runCheck indexEvents
  rw [if_neg (by simp [ha])]
  simp only [ho, hint_fold_log, hint_fold_flag, Bool.false_or]
  cases hnl : env.NoLock
  · have hk : env.lockRepoExclusive = none := by
      rcases hl with h | h
      · rw [hnl] at h; exact absurd h (by simp)
      · exact h
    simp only [hk, if_true]
    refine ⟨fun h => ?_, fun h => ?_⟩
    · rw [if_pos (hlen.mpr h)]
      split <;> simp
    · rw [if_neg (by rw [hlen]; simp [h])]
      split <;> simp
  · simp only [Bool.true_eq_false, if_false]
    refine ⟨fun h => ?_, fun h => ?_⟩
    · rw [if_pos (hlen.mpr h)]
      split <;> simp
    · rw [if_neg (by rw [hlen]; simp [h])]
      split <;> simp

theorem callLoadIndex_mem_indexEvents (env : Collab) : Event.callLoadIndex ∈ indexEvents env := by
  simp [indexEvents]

/-- Up to the end of the loop over the hints, no later phase of the checker is
called. -/
theorem no_phase_call_in_indexEvents (env : Collab) :
    Event.callPacks ∉ indexEvents env ∧ Event.callStructure ∉ indexEvents env ∧
      Event.callUnusedBlobs ∉ indexEvents env ∧
      ∀ q, Event.callReadPacks q ∉ indexEvents env := by
  unfold indexEvents
  refine ⟨?_, ?_, ?_, fun q => ?_⟩ <;>
  · simp only [List.mem_append, List.mem_map, not_or]
    refine ⟨⟨⟨⟨by simp, ?_⟩, by simp⟩, by simp⟩, ?_⟩
    · split <;> simp
    · split <;> simp

/-! ## Lemmas: what the verdict does not depend on -/

theorem doReadData_log_mono (arch : Arch) (env : Collab) (b t : Nat) (st : St) :
    ∀ e ∈ st.log, e ∈ (doReadData arch env b t st).2.log := by
  intro e he
  rcases hsel : selectPacks arch b t env.getPacks with p | packs
  · unfold doReadData
    simp only [hsel, St.emit]
    exact List.mem_append_left _ he
  · rw [(doReadData_of_ok arch env b t st packs hsel).2.2]
    exact List.mem_append_left _ he

theorem dispatch_log_mono (arch : Arch) (opts : CheckOptions) (env : Collab) (st : St) :
    ∀ e ∈ st.log, e ∈ (dispatchReadData arch opts env st).2.log := by
  intro e he
  unfold dispatchReadData
  split
  · exact doReadData_log_mono arch env 1 1 st e he
  · split
    · split
      · exact he
      · exact he
      · exact doReadData_log_mono arch env _ _ st e he
    · exact he

theorem runPhases_log_mono (arch : Arch) (opts : CheckOptions) (env : Collab) (log : List Event) :
    ∀ e ∈ log ++ phaseEvents opts env, e ∈ (runPhases arch opts env log).log := by
  intro e he
  rw [← checkPhases_log] at he
  have hm := dispatch_log_mono arch opts env _ e he
  unfold runPhases
  rcases hd : dispatchReadData arch opts env (checkPhases opts env log) with ⟨_ | p, st⟩
  · rw [hd] at hm
    simp only at hm ⊢
    split
    · exact hm
    · exact List.mem_append_left _ hm
  · rw [hd] at hm
    exact hm

theorem doReadData_indep (arch : Arch) (env : Collab) (b t : Nat) (st st2 : St)
    (h : st.errorsFound = st2.errorsFound) :
    (doReadData arch env b t st).1 = (doReadData arch env b t st2).1 ∧
      (doReadData arch env b t st).2.errorsFound
        = (doReadData arch env b t st2).2.errorsFound := by
  rcases hsel : selectPacks arch b t env.getPacks with p | packs
  · unfold doReadData
    simp only [hsel, St.emit]
    exact ⟨trivial, h⟩
  · obtain ⟨h1, h2, _⟩ := doReadData_of_ok arch env b t st packs hsel
    obtain ⟨h3, h4, _⟩ := doReadData_of_ok arch env b t st2 packs hsel
    refine ⟨by rw [h1, h3], ?_⟩
    rw [Bool.eq_iff_iff, h2, h4, h]

theorem dispatch_indep (arch : Arch) (opts : CheckOptions) (env : Collab) (st st2 : St)
    (h : st.errorsFound = st2.errorsFound) :
    (dispatchReadData arch opts env st).1 = (dispatchReadData arch opts env st2).1 ∧
      (dispatchReadData arch opts env st).2.errorsFound
        = (dispatchReadData arch opts env st2).2.errorsFound := by
  unfold dispatchReadData
  split
  · exact doReadData_indep arch env 1 1 st st2 h
  · split
    · split
      · exact ⟨rfl, h⟩
      · exact ⟨rfl, h⟩
      · exact doReadData_indep arch env _ _ st st2 h
    · exact ⟨rfl, h⟩

theorem checkPhases_indep (opts : CheckOptions) (env : Collab) (log log2 : List Event) :
    (checkPhases opts env log).errorsFound = (checkPhases opts env log2).errorsFound := by
  rw [Bool.eq_iff_iff, checkPhases_errorsFound, checkPhases_errorsFound]

/-- How the phases after the index load end does not depend on the events before. -/
theorem runPhases_ending_indep (arch : Arch) (opts : CheckOptions) (env : Collab)
    (log log2 : List Event) :
    (runPhases arch opts env log).ending = (runPhases arch opts env log2).ending := by
  obtain ⟨h1, h2⟩ := dispatch_indep arch opts env _ _ (checkPhases_indep opts env log log2)
  unfold runPhases
  rcases hd : dispatchReadData arch opts env (checkPhases opts env log) with ⟨_ | p, st⟩ <;>
  rcases hd2 : dispatchReadData arch opts env (checkPhases opts env log2) with ⟨_ | p2, st2⟩ <;>
  rw [hd, hd2] at h1 h2 <;> simp only at h1 h2 ⊢
  · rw [h2]
    split <;> rfl
  · exact absurd h1 (by simp)
  · exact absurd h1 (by simp)
  · rw [Option.some.inj h1]

/-- The phases after the index load do not look at the hints. -/
theorem runPhases_hints (arch : Arch) (opts : CheckOptions) (env : Collab) (hints : List Hint)
    (log : List Event) :
    runPhases arch opts { env with loadIndexHints := hints } log = runPhases arch opts env log :=
  rfl

/-! ## Lemmas: how a run that loaded the index ends -/

theorem runPhases_panicked (arch : Arch) (opts : CheckOptions) (env : Collab)
    (log : List Event) (p : GoPanic)
    (h : (dispatchReadData arch opts env (checkPhases opts env log)).1 = some p) :
    (runPhases arch opts env log).ending = .panicked p := by
  unfold runPhases
  rcases hd : dispatchReadData arch opts env (checkPhases opts env log) with ⟨_ | q, st⟩
  · rw [hd] at h
    exact absurd h (by simp)
  · rw [hd] at h
    simp only [Option.some.injEq] at h
    rw [h]

/-- The phases after the index load never return the error of the index load. -/
theorem runPhases_ending_ne_loadIndex (arch : Arch) (opts : CheckOptions) (env : Collab)
    (log : List Event) :
    (runPhases arch opts env log).ending
      ≠ .returned (some (.fatal "LoadIndex returned errors")) := by
  unfold runPhases
  rcases dispatchReadData arch opts env (checkPhases opts env log) with ⟨_ | q, st⟩
  · simp only
    split
    · simp only [ne_eq, Ending.returned.injEq, Option.some.injEq, GoError.fatal.injEq]
      decide
    · simp
  · simp

/-- The verdict of a run that loaded the index without errors and does not panic. -/
theorem runCheck_verdict_of_no_panic (arch : Arch) (opts : CheckOptions) (env : Collab)
    (args : List GoString) (ha : args = []) (ho : env.openRepository = none)
    (hl : env.NoLock = true ∨ env.lockRepoExclusive = none)
    (herrs : env.loadIndexErrs = [])
    (hsafe : ∀ p, (runCheck arch opts env args).ending ≠ .panicked p) :
    ((runCheck arch opts env args).ending
          = .returned (some (.fatal "repository contains errors")) ↔
        ErrorsObserved opts env (runCheck arch opts env args)) ∧
      (¬ ErrorsObserved opts env (runCheck arch opts env args) →
        (runCheck arch opts env args).ending = .returned none) := by
  rw [(runCheck_late arch opts env args ha ho hl).2 herrs] at hsafe ⊢
  have hd : (dispatchReadData arch opts env (checkPhases opts env (indexEvents env))).1
      = none := by
    rcases hq : (dispatchReadData arch opts env
      (checkPhases opts env (indexEvents env))).1 with _ | q
    · rfl
    · exact absurd (runPhases_panicked arch opts env _ q hq) (hsafe q)
  obtain ⟨hiff, hor, _⟩ := runPhases_of_none arch opts env (indexEvents env)
    (no_phase_call_in_indexEvents env).2.2.2 hd
  refine ⟨hiff, fun hno => ?_⟩
  rcases hor with hbad | hgood
  · exact absurd (hiff.mp hbad) hno
  · exact hgood

/-- A run with options that `checkFlags` accepted does not panic. -/
theorem runCheck_no_panic_of_checkFlags (arch : Arch) (opts : CheckOptions) (env : Collab)
    (args : List GoString) (ha : args = []) (ho : env.openRepository = none)
    (hl : env.NoLock = true ∨ env.lockRepoExclusive = none)
    (herrs : env.loadIndexErrs = []) (hflags : checkFlags arch opts = none) :
    ∀ p, (runCheck arch opts env args).ending ≠ .panicked p := by
  intro p
  rw [(runCheck_late arch opts env args ha ho hl).2 herrs]
  obtain ⟨_, hor, _⟩ := runPhases_of_none arch opts env (indexEvents env)
    (no_phase_call_in_indexEvents env).2.2.2 (dispatch_no_panic arch opts env _ hflags)
  rcases hor with hh | hh <;> rw [hh] <;> simp

/-! ## The claims -/

/-- C1. Bucketing coverage and disjointness: for every `totalBuckets` `t` with
`1 ≤ t ≤ 256` and every pack set, `doReadData` builds a pack set for every bucket
(no panic), every pack is selected for exactly one bucket in `1 .. t`, the sets of
two different buckets are disjoint, and the union of the `t` sets is the full pack
set. -/
theorem bucketing_partitions (arch : Arch) (t : Nat) (allPacks : IDSet)
    (h1 : 1 ≤ t) (h256 : t ≤ 256) :
    ∃ sel : Nat → IDSet,
      (∀ b, selectPacks arch b t allPacks = .ok (sel b)) ∧
      (∀ pack ∈ allPacks, ∃! b, b ∈ Finset.Icc 1 t ∧ pack ∈ sel b) ∧
      (∀ b ∈ Finset.Icc 1 t, ∀ b2 ∈ Finset.Icc 1 t, b ≠ b2 → Disjoint (sel b) (sel b2)) ∧
      (Finset.Icc 1 t).biUnion sel = allPacks := by
  have hsel : ∀ b, b ∈ Finset.Icc 1 t → ∀ pack,
      (packSelected arch b t pack = true ↔ bucketOf pack t = b) := by
    intro b hb pack
    rw [Finset.mem_Icc] at hb
    exact packSelected_iff arch b t pack hb.1 (lt_uintCard_of_le arch b (by omega))
  refine ⟨fun b => allPacks.filter (fun pack => packSelected arch b t pack = true),
    fun b => selectPacks_of_ne_zero arch b t allPacks (by omega), ?_, ?_, ?_⟩
  · intro pack hp
    have hb := bucketOf_mem_Icc pack t h1
    refine ⟨bucketOf pack t, ⟨Finset.mem_Icc.mpr hb, ?_⟩, ?_⟩
    · exact Finset.mem_filter.mpr ⟨hp, (hsel _ (Finset.mem_Icc.mpr hb) pack).mpr rfl⟩
    · rintro b ⟨hbI, hbs⟩
      exact ((hsel b hbI pack).mp (Finset.mem_filter.mp hbs).2).symm
  · intro b hb b2 hb2 hne
    rw [Finset.disjoint_left]
    intro pack hp hp2
    have e1 := (hsel b hb pack).mp (Finset.mem_filter.mp hp).2
    have e2 := (hsel b2 hb2 pack).mp (Finset.mem_filter.mp hp2).2
    exact hne (e1.symm.trans e2)
  · ext pack
    rw [Finset.mem_biUnion]
    constructor
    · rintro ⟨b, _, hb⟩
      exact (Finset.mem_filter.mp hb).1
    · intro hp
      have hb := bucketOf_mem_Icc pack t h1
      exact ⟨bucketOf pack t, Finset.mem_Icc.mpr hb,
        Finset.mem_filter.mpr ⟨hp, (hsel _ (Finset.mem_Icc.mpr hb) pack).mpr rfl⟩⟩

/-- Witness of C1: four buckets over the three sample packs. -/
theorem bucketing_partitions_witness :
    (1 ≤ 4 ∧ 4 ≤ 256) ∧
      ∃ sel : Nat → IDSet,
        (∀ b, selectPacks .bits64 b 4 samplePacks = .ok (sel b)) ∧
        (∀ pack ∈ samplePacks, ∃! b, b ∈ Finset.Icc 1 4 ∧ pack ∈ sel b) ∧
        (∀ b ∈ Finset.Icc 1 4, ∀ b2 ∈ Finset.Icc 1 4, b ≠ b2 → Disjoint (sel b) (sel b2)) ∧
        (Finset.Icc 1 4).biUnion sel = samplePacks :=
  ⟨by decide, bucketing_partitions .bits64 4 samplePacks (by decide) (by decide)⟩

/-- C2. Bucket formula: for every `totalBuckets` `t ≥ 1` and every bucket `b ≥ 1`
(a `uint`), `doReadData(b, t)` selects a pack if and only if
`(firstByte(packID) mod t) + 1 = b`; the test and the selected set depend on a pack
ID only through its first byte. -/
theorem bucket_formula (arch : Arch) (t b : Nat) (allPacks : IDSet)
    (ht : 1 ≤ t) (hb : 1 ≤ b) (hbu : b < arch.uintCard) :
    (∀ pack, packSelected arch b t pack = true ↔ bucketOf pack t = b) ∧
      (∀ p q : ID, p.head = q.head → packSelected arch b t p = packSelected arch b t q) ∧
      ∃ sel, selectPacks arch b t allPacks = .ok sel ∧
        (∀ pack, pack ∈ sel ↔ pack ∈ allPacks ∧ bucketOf pack t = b) ∧
        (∀ p ∈ allPacks, ∀ q ∈ allPacks, p.head = q.head → (p ∈ sel ↔ q ∈ sel)) := by
  have hiff := fun pack => packSelected_iff arch b t pack hb hbu
  have hhead : ∀ p q : ID, p.head = q.head →
      packSelected arch b t p = packSelected arch b t q := by
    intro p q hpq
    unfold packSelected
    rw [hpq]
  refine ⟨hiff, hhead, _, selectPacks_of_ne_zero arch b t allPacks (by omega), ?_, ?_⟩
  · intro pack
    rw [Finset.mem_filter, hiff]
  · intro p hp q hq hpq
    rw [Finset.mem_filter, Finset.mem_filter, hhead p q hpq]
    exact ⟨fun h => ⟨hq, h.2⟩, fun h => ⟨hp, h.2⟩⟩

/-- Witness of C2: bucket 3 of 4 over the three sample packs. -/
theorem bucket_formula_witness :
    (1 ≤ 4 ∧ 1 ≤ 3 ∧ 3 < Arch.bits32.uintCard) ∧
      ((∀ pack, packSelected .bits32 3 4 pack = true ↔ bucketOf pack 4 = 3) ∧
      (∀ p q : ID, p.head = q.head → packSelected .bits32 3 4 p = packSelected .bits32 3 4 q) ∧
      ∃ sel, selectPacks .bits32 3 4 samplePacks = .ok sel ∧
        (∀ pack, pack ∈ sel ↔ pack ∈ samplePacks ∧ bucketOf pack 4 = 3) ∧
        (∀ p ∈ samplePacks, ∀ q ∈ samplePacks, p.head = q.head → (p ∈ sel ↔ q ∈ sel))) :=
  ⟨by decide, bucket_formula .bits32 4 3 samplePacks (by decide) (by decide) (by decide)⟩

/-- C5. Read-all mode: with `--read-data` the dispatch of `runCheck` calls
`doReadData(1, 1)`, which selects every pack of every pack set, does not panic, and
hands the full set of `GetPacks` to `ReadPacks`. -/
theorem read_data_selects_all (arch : Arch) (opts : CheckOptions) (env : Collab) (st : St)
    (h : opts.ReadData = true) :
    dispatchReadData arch opts env st = doReadData arch env 1 1 st ∧
      (∀ allPacks : IDSet, selectPacks arch 1 1 allPacks = .ok allPacks) ∧
      (doReadData arch env 1 1 st).1 = none ∧
      (doReadData arch env 1 1 st).2.log = st.log ++ readEvents env 1 1 env.getPacks ∧
      Event.callReadPacks env.getPacks ∈ (doReadData arch env 1 1 st).2.log := by
  have hall : ∀ allPacks : IDSet, selectPacks arch 1 1 allPacks = .ok allPacks := by
    intro allPacks
    rw [selectPacks_of_ne_zero arch 1 1 allPacks (by omega)]
    congr 1
    apply Finset.filter_true_of_mem
    intro pack _
    rw [packSelected_iff arch 1 1 pack (by omega) (lt_uintCard_of_le arch 1 (by omega))]
    unfold bucketOf
    omega
  obtain ⟨h1, _, h3⟩ := doReadData_of_ok arch env 1 1 st env.getPacks (hall _)
  refine ⟨?_, hall, h1, h3, ?_⟩
  · unfold dispatchReadData
    rw [if_pos h]
  · rw [h3]
    exact List.mem_append_right _ ((callReadPacks_mem_readEvents env 1 1 _ _).mpr rfl)

/-- Witness of C5: `--read-data` on the sample repository. -/
theorem read_data_selects_all_witness :
    optsReadData.ReadData = true ∧
      Event.callReadPacks samplePacks
        ∈ (doReadData .bits64 quietRepo 1 1 ⟨false, 0, []⟩).2.log :=
  ⟨rfl, (read_data_selects_all .bits64 optsReadData quietRepo ⟨false, 0, []⟩ rfl).2.2.2.2⟩

/-- C8. Why the limit is 256: for `1 ≤ t ≤ 256` every bucket `b` in `1 .. t` is
reachable (a pack ID exists that `doReadData(b, t)` selects from every pack set
holding it); for a `uint` `t > 256` every bucket `b` with `256 < b ≤ t` selects no
pack from any pack set, so some bucket in `1 .. t` is unreachable. -/
theorem limit_256 (arch : Arch) (t : Nat) (ht : 1 ≤ t) (htu : t < arch.uintCard) :
    (t ≤ 256 → ∀ b, 1 ≤ b → b ≤ t →
        ∃ pack : ID, ∀ allPacks : IDSet, pack ∈ allPacks →
          ∃ sel, selectPacks arch b t allPacks = .ok sel ∧ pack ∈ sel) ∧
      (256 < t →
        (∀ b, 256 < b → b ≤ t → ∀ allPacks : IDSet, selectPacks arch b t allPacks = .ok ∅) ∧
          ∃ b, 1 ≤ b ∧ b ≤ t ∧ ∀ allPacks : IDSet, selectPacks arch b t allPacks = .ok ∅) := by
  have hunreach : ∀ b, 256 < b → b ≤ t → ∀ allPacks : IDSet,
      selectPacks arch b t allPacks = .ok ∅ := by
    intro b hb hbt allPacks
    rw [selectPacks_of_ne_zero arch b t allPacks (by omega)]
    congr 1
    apply Finset.filter_false_of_mem
    intro pack _
    rw [packSelected_iff arch b t pack (by omega) (by omega)]
    have h1 := firstByte_lt pack
    have h2 := Nat.mod_le (firstByte pack) t
    unfold bucketOf
    omega
  refine ⟨fun h256 b hb hbt => ?_, fun h256 => ⟨hunreach, t, ht, Nat.le_refl t,
    hunreach t h256 (Nat.le_refl t)⟩⟩
  refine ⟨packWithFirstByte ⟨b - 1, by omega⟩, fun allPacks hp => ?_⟩
  refine ⟨_, selectPacks_of_ne_zero arch b t allPacks (by omega), ?_⟩
  rw [Finset.mem_filter]
  refine ⟨hp, ?_⟩
  rw [packSelected_iff arch b t _ hb (by omega)]
  unfold bucketOf
  rw [firstByte_packWithFirstByte]
  show (b - 1) % t + 1 = b
  rw [Nat.mod_eq_of_lt (by omega)]
  omega

/-- Witness of C8: bucket 3 of 4 is reachable, bucket 257 of 300 is not. -/
theorem limit_256_witness :
    (1 ≤ 4 ∧ 4 < Arch.bits64.uintCard ∧ 1 ≤ 300 ∧ 300 < Arch.bits64.uintCard) ∧
      (∃ pack : ID, ∀ allPacks : IDSet, pack ∈ allPacks →
        ∃ sel, selectPacks .bits64 3 4 allPacks = .ok sel ∧ pack ∈ sel) ∧
      selectPacks .bits64 257 300 samplePacks = .ok ∅ :=
  ⟨by decide,
    (limit_256 .bits64 4 (by decide) (by decide)).1 (by decide) 3 (by decide) (by decide),
    ((limit_256 .bits64 300 (by decide) (by decide)).2 (by decide)).1 257 (by decide)
      (by decide) samplePacks⟩

/-- C3. Bucketing bound: when the value of `--read-data-subset` is `n/t` with
`t > 256` (as text: two unsigned decimal integers around one `'/'`; or as the code
parses it: `stringToIntSlice` returns `[n, t]`), `checkFlags` returns an error, and
the command, which runs `checkFlags` before `runCheck`, returns that error without
one call of a collaborator: no pack is read. -/
theorem too_many_buckets_rejected (arch : Arch) (opts : CheckOptions) (env : Collab)
    (args : List GoString)
    (h : (∃ a b : GoString, opts.ReadDataSubset = a ++ 47 :: b ∧ IsUnsignedDecimal a ∧
            IsUnsignedDecimal b ∧ 256 < decimalValue b) ∨
          (∃ n t, stringToIntSlice arch opts.ReadDataSubset = ([n, t], none) ∧ 256 < t)) :
    (∃ err, checkFlags arch opts = some err) ∧
      (cmdCheck arch opts env args).ending = .returned (checkFlags arch opts) ∧
      (cmdCheck arch opts env args).log = [] := by
  have hne : checkFlags arch opts ≠ none := by
    intro hnone
    rcases h with ⟨a, b, hs, ha, hb, hbig⟩ | ⟨n, t, hp, hbig⟩
    · rcases (checkFlags_eq_none_iff arch opts).mp hnone with hempty | ⟨_, a2, b2, hs2, ha2, hb2, _, _, hle⟩
      · rw [hs] at hempty
        exact absurd hempty (by simp)
      · have e1 := stringsSplit_of_two a b ha hb
        have e2 := stringsSplit_of_two a2 b2 ha2 hb2
        rw [← hs, hs2, e2] at e1
        simp only [List.cons.injEq, and_true] at e1
        rw [e1.2] at hle
        omega
    · have hnonempty : opts.ReadDataSubset ≠ [] := by
        intro hempty
        rw [hempty] at hp
        simp [stringToIntSlice] at hp
      obtain ⟨_, n2, t2, hp2, _, _, hle⟩ := checkFlags_none_inv arch opts hnone hnonempty
      rw [hp] at hp2
      simp only [Prod.mk.injEq, List.cons.injEq, and_true] at hp2
      omega
  obtain ⟨err, herr⟩ := Option.ne_none_iff_exists'.mp hne
  refine ⟨⟨err, herr⟩, ?_, ?_⟩
  · unfold cmdCheck
    rw [herr]
  · unfold cmdCheck
    rw [herr]

/-- Witness of C3: `--read-data-subset=1/300`. -/
theorem too_many_buckets_rejected_witness :
    (stringToIntSlice .bits64 optsSubsetTooMany.ReadDataSubset = ([1, 300], none) ∧ 256 < 300) ∧
      checkFlags .bits64 optsSubsetTooMany = some (.fatal msgAtMost) ∧
      (cmdCheck .bits64 optsSubsetTooMany quietRepo []).log = [] :=
  ⟨by decide, by decide,
    (too_many_buckets_rejected .bits64 optsSubsetTooMany quietRepo []
      (Or.inr ⟨1, 300, by decide, by decide⟩)).2.2⟩

/-- C4. Exact acceptance condition of `checkFlags`: it returns nil if and only if
`ReadDataSubset` is empty, or `ReadData` is false and `ReadDataSubset` is exactly two
`'/'`-separated unsigned decimal integers `n` and `t` with `1 ≤ n ≤ t ≤ 256`.  In
particular `--read-data` with a non-empty subset is rejected, and so is a non-empty
value made of `'/'`-separated parts when the parts are not two, when a part is
not an unsigned decimal integer, when a part is zero, or when `n > t`. -/
theorem checkFlags_acceptance (arch : Arch) (opts : CheckOptions) :
    (checkFlags arch opts = none ↔
        opts.ReadDataSubset = [] ∨
          (opts.ReadData = false ∧ IsSubsetValue opts.ReadDataSubset)) ∧
      (opts.ReadData = true → opts.ReadDataSubset ≠ [] →
        checkFlags arch opts = some (.fatal msgTogether)) ∧
      (∀ parts : List GoString, (∀ p ∈ parts, (47 : Byte) ∉ p) →
        opts.ReadDataSubset = joinSlash parts → opts.ReadDataSubset ≠ [] →
        (parts.length ≠ 2 ∨ (∃ p ∈ parts, ¬ IsUnsignedDecimal p) ∨
          (∃ p ∈ parts, decimalValue p = 0) ∨
          (∃ a b, parts = [a, b] ∧ decimalValue b < decimalValue a)) →
        ∃ err, checkFlags arch opts = some err) := by
  refine ⟨checkFlags_eq_none_iff arch opts, ?_, ?_⟩
  · intro hrd hne
    unfold checkFlags
    rw [if_pos ⟨hrd, hne⟩]
  · intro parts hfree hs hne hbad
    apply Option.ne_none_iff_exists'.mp
    intro hnone
    rcases (checkFlags_eq_none_iff arch opts).mp hnone with hempty | ⟨_, a, b, hs2, ha, hb, h1, h2, _⟩
    · exact hne hempty
    · have hparts : parts ≠ [] := by
        rintro rfl
        exact hne hs
      have e1 := stringsSplit_joinSlash parts hparts hfree
      rw [← hs, hs2, stringsSplit_of_two a b ha hb] at e1
      subst e1
      rcases hbad with hlen | ⟨p, hp, hnd⟩ | ⟨p, hp, hz⟩ | ⟨a2, b2, he, hgt⟩
      · exact hlen rfl
      · simp only [List.mem_cons, List.mem_singleton, List.not_mem_nil, or_false] at hp
        rcases hp with rfl | rfl
        · exact hnd ha
        · exact hnd hb
      · simp only [List.mem_cons, List.mem_singleton, List.not_mem_nil, or_false] at hp
        rcases hp with rfl | rfl
        · omega
        · omega
      · simp only [List.cons.injEq, and_true] at he
        rw [← he.1, ← he.2] at hgt
        omega

/-- Witness of C4: `1/2` is accepted, `3` (one part) is rejected. -/
theorem checkFlags_acceptance_witness :
    checkFlags .bits64 optsSubsetOneOfTwo = none ∧
      ∃ err, checkFlags .bits64 optsSubsetThree = some err :=
  ⟨by decide,
    (checkFlags_acceptance .bits64 optsSubsetThree).2.2 [[51]] (by decide) (by decide)
      (by decide) (Or.inl (by decide))⟩

/-- C9. `stringToIntSlice` inverts joining with `'/'`: the decimal renderings of a
non-empty list of numbers that fit in a `uint`, joined by `'/'`, are converted to
exactly that list with a nil error; the empty string gives the nil slice and a nil
error; a non-empty string one of whose `'/'`-separated parts is not an unsigned
decimal integer that fits in a `uint` gives the nil slice and a non-nil error. -/
theorem stringToIntSlice_inverts_join (arch : Arch) :
    (∀ xs : List Nat, xs ≠ [] → (∀ x ∈ xs, x < arch.uintCard) →
        stringToIntSlice arch (joinSlash (xs.map decimalRendering)) = (xs, none)) ∧
      stringToIntSlice arch [] = ([], none) ∧
      (∀ parts : List GoString, (∀ p ∈ parts, (47 : Byte) ∉ p) → joinSlash parts ≠ [] →
        (∃ p ∈ parts, ¬ FitsUint arch p) →
        (stringToIntSlice arch (joinSlash parts)).1 = [] ∧
          (stringToIntSlice arch (joinSlash parts)).2 ≠ none) := by
  refine ⟨?_, rfl, ?_⟩
  · intro xs hne hfit
    have hparts : xs.map decimalRendering ≠ [] := by simpa using hne
    have hfree : ∀ p ∈ xs.map decimalRendering, (47 : Byte) ∉ p := by
      intro p hp
      obtain ⟨x, _, rfl⟩ := List.mem_map.mp hp
      exact slash_not_mem_of_isUnsignedDecimal _ (isUnsignedDecimal_decimalRendering x)
    have hnonempty : joinSlash (xs.map decimalRendering) ≠ [] := by
      apply joinSlash_ne_nil _ hparts
      intro p hp
      obtain ⟨x, _, rfl⟩ := List.mem_map.mp hp
      exact (isUnsignedDecimal_decimalRendering x).1
    have hsp := stringsSplit_joinSlash _ hparts hfree
    rw [stringToIntSlice_ok arch _ hnonempty (by
      rw [hsp]
      intro p hp
      obtain ⟨x, hx, rfl⟩ := List.mem_map.mp hp
      exact fitsUint_decimalRendering arch x (hfit x hx)), hsp, List.map_map]
    congr 1
    conv_rhs => rw [← List.map_id xs]
    apply List.map_congr_left
    intro x _
    exact decimalValue_decimalRendering x
  · intro parts hfree hnonempty hbad
    have hparts : parts ≠ [] := by
      rintro rfl
      exact hnonempty rfl
    apply stringToIntSlice_err arch _ hnonempty
    rw [stringsSplit_joinSlash parts hparts hfree]
    exact hbad

/-- Witness of C9: `[7, 256, 0]` comes back from `7/256/0`, and a value whose second
part is `-2` gives an error. -/
theorem stringToIntSlice_inverts_join_witness :
    stringToIntSlice .bits32 [55, 47, 50, 53, 54, 47, 48] = ([7, 256, 0], none) ∧
      (stringToIntSlice .bits32 [49, 47, 45, 50]).1 = [] ∧
      (stringToIntSlice .bits32 [49, 47, 45, 50]).2 ≠ none :=
  ⟨(stringToIntSlice_inverts_join .bits32).1 [7, 256, 0] (by decide) (by decide),
    (stringToIntSlice_inverts_join .bits32).2.2 [[49], [45, 50]] (by decide) (by decide)
      ⟨[45, 50], by decide, by decide⟩⟩

/-- C6. A fatal `LoadIndex` error prevents every later phase: in every run that gets
to the index load (no arguments, the repository opens, the lock is taken or not
asked for), when `chkr.LoadIndex` returns a non-empty error list, whatever the hints,
`runCheck` returns the fatal error "LoadIndex returned errors" and none of
`chkr.Packs`, `chkr.Structure`, `chkr.UnusedBlobs`, `chkr.ReadPacks` is called; when
the error list is empty the run does not end with that error, it goes on to call
`chkr.Packs` and `chkr.Structure`, and with any other list of hints it ends the same
way and goes on as well. -/
theorem loadIndex_errors_abort (arch : Arch) (opts : CheckOptions) (env : Collab)
    (args : List GoString) (ha : args = []) (ho : env.openRepository = none)
    (hl : env.NoLock = true ∨ env.lockRepoExclusive = none) :
    (env.loadIndexErrs ≠ [] →
        (runCheck arch opts env args).ending
          = .returned (some (.fatal "LoadIndex returned errors")) ∧
        Event.callLoadIndex ∈ (runCheck arch opts env args).log ∧
        Event.callPacks ∉ (runCheck arch opts env args).log ∧
        Event.callStructure ∉ (runCheck arch opts env args).log ∧
        Event.callUnusedBlobs ∉ (runCheck arch opts env args).log ∧
        ∀ packs, Event.callReadPacks packs ∉ (runCheck arch opts env args).log) ∧
      (env.loadIndexErrs = [] →
        (runCheck arch opts env args).ending
          ≠ .returned (some (.fatal "LoadIndex returned errors")) ∧
        Event.callLoadIndex ∈ (runCheck arch opts env args).log ∧
        Event.callPacks ∈ (runCheck arch opts env args).log ∧
        Event.callStructure ∈ (runCheck arch opts env args).log ∧
        ∀ hints : List Hint,
          (runCheck arch opts { env with loadIndexHints := hints } args).ending
            = (runCheck arch opts env args).ending ∧
          Event.callPacks
            ∈ (runCheck arch opts { env with loadIndexHints := hints } args).log ∧
          Event.callStructure
            ∈ (runCheck arch opts { env with loadIndexHints := hints } args).log) := by
  obtain ⟨hbad, hgood⟩ := runCheck_late arch opts env args ha ho hl
  obtain ⟨n1, n2, n3, n4⟩ := no_phase_call_in_indexEvents env
  have hmono : ∀ (e2 : Collab) (e : Event), e ∈ indexEvents e2 ++ phaseEvents opts e2 →
      e ∈ (runPhases arch opts e2 (indexEvents e2)).log :=
    fun e2 e he => runPhases_log_mono arch opts e2 _ e he
  refine ⟨fun herrs => ?_, fun herrs => ?_⟩
  · obtain ⟨hend, hlog⟩ := hbad herrs
    rw [hlog]
    refine ⟨hend, List.mem_append_left _ (callLoadIndex_mem_indexEvents env), ?_, ?_, ?_,
      fun packs => ?_⟩
    · simpa using n1
    · simpa using n2
    · simpa using n3
    · simpa using n4 packs
  · rw [hgood herrs]
    refine ⟨runPhases_ending_ne_loadIndex arch opts env _,
      hmono env _ (List.mem_append_left _ (callLoadIndex_mem_indexEvents env)),
      hmono env _ (List.mem_append_right _ (callPacks_mem_phaseEvents opts env)),
      hmono env _ (List.mem_append_right _ (callStructure_mem_phaseEvents opts env)),
      fun hints => ?_⟩
    have h2 := (runCheck_late arch opts { env with loadIndexHints := hints } args ha ho
      hl).2 herrs
    rw [h2]
    refine ⟨?_, hmono _ _ (List.mem_append_right _ (callPacks_mem_phaseEvents opts _)),
      hmono _ _ (List.mem_append_right _ (callStructure_mem_phaseEvents opts _))⟩
    rw [runPhases_hints]
    exact runPhases_ending_indep arch opts env _ _

/-- Witness of C6: on the sample repository with a failing index load the run ends
with the error of the index load and does not call `chkr.Packs`; with hints only it
returns nil and calls `chkr.Packs`. -/
theorem loadIndex_errors_abort_witness :
    (brokenIndexRepo.loadIndexErrs ≠ [] ∧ hintsOnlyRepo.loadIndexErrs = []) ∧
      ((runCheck .bits64 optsReadData brokenIndexRepo []).ending
          = .returned (some (.fatal "LoadIndex returned errors")) ∧
        Event.callPacks ∉ (runCheck .bits64 optsReadData brokenIndexRepo []).log) ∧
      ((runCheck .bits64 optsReadData hintsOnlyRepo []).ending
          ≠ .returned (some (.fatal "LoadIndex returned errors")) ∧
        Event.callPacks ∈ (runCheck .bits64 optsReadData hintsOnlyRepo []).log ∧
        (runCheck .bits64 optsReadData { hintsOnlyRepo with loadIndexHints := [] } []).ending
          = (runCheck .bits64 optsReadData hintsOnlyRepo []).ending) :=
  ⟨⟨by decide, rfl⟩,
    ⟨((loadIndex_errors_abort .bits64 optsReadData brokenIndexRepo [] rfl rfl (Or.inr rfl)).1
        (by decide)).1,
      ((loadIndex_errors_abort .bits64 optsReadData brokenIndexRepo [] rfl rfl (Or.inr rfl)).1
        (by decide)).2.2.1⟩,
    ⟨((loadIndex_errors_abort .bits64 optsReadData hintsOnlyRepo [] rfl rfl (Or.inr rfl)).2
        rfl).1,
      ((loadIndex_errors_abort .bits64 optsReadData hintsOnlyRepo [] rfl rfl (Or.inr rfl)).2
        rfl).2.2.1,
      (((loadIndex_errors_abort .bits64 optsReadData hintsOnlyRepo [] rfl rfl (Or.inr rfl)).2
        rfl).2.2.2.2 []).1⟩⟩

/-- C7. Final verdict as an aggregate of the streamed results, for every run that
gets past the argument check, the repository open, the lock and the index load
without error.  The command runs `runCheck` exactly when `checkFlags` accepted the
options, and such a run returns the fatal error "repository contains errors" if and
only if one of the four findings of `ErrorsObserved` holds, and returns nil
otherwise; when `checkFlags` rejected the options the command returns that error
and `runCheck` does not run.  The same verdict holds for every call of `runCheck`
that does not panic, whatever the options.  Orphaned-pack findings and hints alone
are not among the findings. -/
theorem verdict_aggregate (arch : Arch) (opts : CheckOptions) (env : Collab)
    (args : List GoString) (ha : args = []) (ho : env.openRepository = none)
    (hl : env.NoLock = true ∨ env.lockRepoExclusive = none)
    (herrs : env.loadIndexErrs = []) :
    (checkFlags arch opts = none →
        cmdCheck arch opts env args = runCheck arch opts env args ∧
        ((runCheck arch opts env args).ending
            = .returned (some (.fatal "repository contains errors")) ↔
          ErrorsObserved opts env (runCheck arch opts env args)) ∧
        (¬ ErrorsObserved opts env (runCheck arch opts env args) →
          (runCheck arch opts env args).ending = .returned none)) ∧
      (∀ err, checkFlags arch opts = some err →
        (cmdCheck arch opts env args).ending = .returned (some err) ∧
          (cmdCheck arch opts env args).log = []) ∧
      ((∀ p, (runCheck arch opts env args).ending ≠ .panicked p) →
        ((runCheck arch opts env args).ending
            = .returned (some (.fatal "repository contains errors")) ↔
          ErrorsObserved opts env (runCheck arch opts env args)) ∧
        (¬ ErrorsObserved opts env (runCheck arch opts env args) →
          (runCheck arch opts env args).ending = .returned none)) ∧
      ((∀ e ∈ env.packsErrs, env.IsOrphanedPack e = true) → env.structureErrs = [] →
        (opts.CheckUnused = false ∨ env.unusedBlobs = []) →
        (∀ packs, env.readPacksErrs packs = []) →
        ¬ ErrorsObserved opts env (runCheck arch opts env args)) := by
  refine ⟨fun hflags => ⟨?_, ?_⟩, fun err herr => ?_, fun hsafe => ?_,
    fun hp hs hu hr hobs => ?_⟩
  · unfold cmdCheck
    rw [hflags]
  · exact runCheck_verdict_of_no_panic arch opts env args ha ho hl herrs
      (runCheck_no_panic_of_checkFlags arch opts env args ha ho hl herrs hflags)
  · unfold cmdCheck
    rw [herr]
    exact ⟨rfl, rfl⟩
  · exact runCheck_verdict_of_no_panic arch opts env args ha ho hl herrs hsafe
  · rcases hobs with ⟨e, he, hf⟩ | h2 | ⟨h3, h4⟩ | ⟨_, packs, _, h5⟩
    · rw [hp e he] at hf
      exact absurd hf (by simp)
    · exact h2 hs
    · rcases hu with hu | hu
      · rw [hu] at h3
        exact absurd h3 (by simp)
      · exact h4 hu
    · exact h5 (hr packs)

/-- Witness of C7: with `--read-data-subset=1/2` the run on the sample repository
returns nil and the run on the repository with a `Structure` error returns the fatal
error; a direct call with `1/2/3`, which does not panic, returns nil as well. -/
theorem verdict_aggregate_witness :
    checkFlags .bits64 optsSubsetOneOfTwo = none ∧
      (runCheck .bits64 optsSubsetOneOfTwo quietRepo []).ending = .returned none ∧
      (runCheck .bits64 optsSubsetOneOfTwo damagedRepo []).ending
        = .returned (some (.fatal "repository contains errors")) ∧
      (runCheck .bits64 optsSubsetThreeParts quietRepo []).ending = .returned none :=
  ⟨by decide,
    ((verdict_aggregate .bits64 optsSubsetOneOfTwo quietRepo [] rfl rfl (Or.inr rfl) rfl).1
      (by decide)).2.2
      ((verdict_aggregate .bits64 optsSubsetOneOfTwo quietRepo [] rfl rfl (Or.inr rfl)
        rfl).2.2.2 (by decide) rfl (Or.inl rfl) (fun _ => rfl)),
    ((verdict_aggregate .bits64 optsSubsetOneOfTwo damagedRepo [] rfl rfl (Or.inr rfl) rfl).1
      (by decide)).2.1.mpr (Or.inr (Or.inl (by decide))),
    ((verdict_aggregate .bits64 optsSubsetThreeParts quietRepo [] rfl rfl (Or.inr rfl)
      rfl).2.2.1 (fun p hp => Ending.noConfusion ((show
        (runCheck .bits64 optsSubsetThreeParts quietRepo []).ending = .returned none
        by decide).symm.trans hp))).2
      ((verdict_aggregate .bits64 optsSubsetThreeParts quietRepo [] rfl rfl (Or.inr rfl)
        rfl).2.2.2 (by decide) rfl (Or.inl rfl) (fun _ => rfl))⟩

/-- C10. Validated options make the data-read dispatch safe: for options for which
`checkFlags` returns nil, when `ReadDataSubset` is non-empty the re-parse by
`stringToIntSlice` yields a slice of length exactly 2, `doReadData` is called with
`1 ≤ bucket ≤ totalBuckets ≤ 256`, the modulus is not zero and `bucket - 1` does
not wrap around; the dispatch does not panic and no run of `runCheck` panics. -/
theorem validated_dispatch_safe (arch : Arch) (opts : CheckOptions)
    (h : checkFlags arch opts = none) :
    (opts.ReadDataSubset ≠ [] →
        opts.ReadData = false ∧
        ∃ n t, (stringToIntSlice arch opts.ReadDataSubset).1 = [n, t] ∧
          1 ≤ n ∧ n ≤ t ∧ t ≤ 256 ∧ t ≠ 0 ∧
          (n + arch.uintCard - 1) % arch.uintCard = n - 1 ∧
          ∀ (env : Collab) (st : St),
            dispatchReadData arch opts env st = doReadData arch env n t st ∧
              ∃ packs, selectPacks arch n t env.getPacks = .ok packs) ∧
      (∀ (env : Collab) (st : St), (dispatchReadData arch opts env st).1 = none) ∧
      (∀ (env : Collab) (args : List GoString) (p : GoPanic),
        (runCheck arch opts env args).ending ≠ .panicked p) := by
  refine ⟨fun hne => ?_, fun env st => dispatch_no_panic arch opts env st h,
    fun env args p => ?_⟩
  · obtain ⟨hrd, n, t, hp, h1, h2, h3⟩ := checkFlags_none_inv arch opts h hne
    have hcard := uintCard_gt arch
    refine ⟨hrd, n, t, by rw [hp], h1, h2, h3, by omega, ?_, fun env st => ⟨?_, ?_⟩⟩
    · have e : n + arch.uintCard - 1 = (n - 1) + arch.uintCard := by omega
      rw [e, Nat.add_mod_right, Nat.mod_eq_of_lt (by omega)]
    · unfold dispatchReadData
      rw [if_neg (by simp [hrd]), if_pos hne, hp]
    · exact ⟨_, selectPacks_of_ne_zero arch n t env.getPacks (by omega)⟩
  · by_cases hlate : args = [] ∧ env.openRepository = none ∧
        (env.NoLock = true ∨ env.lockRepoExclusive = none)
    · obtain ⟨ha, ho, hl⟩ := hlate
      obtain ⟨hbad, hgood⟩ := runCheck_late arch opts env args ha ho hl
      by_cases herrs : env.loadIndexErrs = []
      · rw [hgood herrs]
        obtain ⟨_, hor, _⟩ := runPhases_of_none arch opts env (indexEvents env)
          (no_phase_call_in_indexEvents env).2.2.2 (dispatch_no_panic arch opts env _ h)
        rcases hor with hh | hh <;> rw [hh] <;> simp
      · rw [(hbad herrs).1]
        simp
    · obtain ⟨⟨err, herr⟩, _, _⟩ := runCheck_early arch opts env args hlate
      rw [herr]
      simp

/-- Witness of C10: `--read-data-subset=1/2` is accepted and its run on the sample
repository does not panic. -/
theorem validated_dispatch_safe_witness :
    checkFlags .bits64 optsSubsetOneOfTwo = none ∧
      (dispatchReadData .bits64 optsSubsetOneOfTwo quietRepo ⟨false, 0, []⟩).1 = none ∧
      (runCheck .bits64 optsSubsetOneOfTwo quietRepo []).ending
        ≠ .panicked .divideByZero :=
  ⟨by decide, (validated_dispatch_safe .bits64 optsSubsetOneOfTwo (by decide)).2.1 _ _,
    (validated_dispatch_safe .bits64 optsSubsetOneOfTwo (by decide)).2.2 _ _ _⟩

end Restic
